import Mathlib

/-!
# xs71/logger: an asynchronous, leveled log pipeline

A shallow embedding of `logger.go`.  The file has three layers:

* the severity model, the message record and the line format
  (`colorLevel`, `newMessage`, `format`);
* the `Logger` record with its bounded channel, and the sequential reading of
  the methods `write`, `Log`, `DEBUG`, ..., `SetLevel`, the two constructors;
* a small-step machine for the goroutines: one consumer (the anonymous
  function started by `run`) and any number of caller threads, each executing
  the atomic statements of `write` and `Close` one at a time.

The machine interleaves the statements of the threads; every read or write
of a field of the Logger and every channel operation takes effect at once
(the source uses no lock and no atomic, so this is the most favourable reading
of its plain field accesses).
-/

namespace XsLogger

/-! ## Severity model (logger.go, lines 12-39) -/

/-- Go: `type LogLevel int`. -/
abbrev LogLevel := Int

def DEBUG : LogLevel := 0
def INFO : LogLevel := 1
def WARN : LogLevel := 2
def ERROR : LogLevel := 3
def lOGSYS : LogLevel := 100

/-- The map `logLevelMap`; a key that is absent yields the zero value `""`. -/
def logLevelMap (level : LogLevel) : String :=
  if level = DEBUG then "DEBUG"
  else if level = INFO then "INFO"
  else if level = WARN then "WARN"
  else if level = ERROR then "ERROR"
  else if level = lOGSYS then "LOGSYS"
  else ""

/-- The map `logColerMap`; a key that is absent yields the zero value `0`. -/
def logColerMap (level : LogLevel) : Int :=
  if level = DEBUG then 34
  else if level = INFO then 32
  else if level = WARN then 33
  else if level = ERROR then 31
  else if level = lOGSYS then 31
  else 0

/-- An operand of `fmt.Sprint` / `fmt.Sprintf`: the program only passes
strings and ints. -/
inductive Operand where
  | str (s : String)
  | int (n : Int)
  deriving DecidableEq, Repr

/-- Default rendering of one operand (`%v`): a string as it is, an int in
decimal. -/
def Operand.render : Operand → String
  | .str s => s
  | .int n => toString n

def Operand.isStr : Operand → Bool
  | .str _ => true
  | .int _ => false

/-- Go `fmt.Sprint`: operands are rendered in order, and a space is added
between two operands when neither of them is a string. -/
def Sprint : List Operand → String
  | [] => ""
  | [a] => a.render
  | a :: b :: rest =>
    a.render ++ (if !a.isStr && !b.isStr then " " else "") ++ Sprint (b :: rest)

/-- Go, line 37: `colorLevel`. -/
def colorLevel (level : LogLevel) : String :=
  Sprint [.str "\x1b[1;", .int (logColerMap level), .str "m",
          .str (logLevelMap level), .str "\x1b[0m"]

/-! ## Messages (lines 41-52) -/

/-- The civil fields of a `time.Time` that the layout of the log line reads. -/
structure Time where
  year : Nat
  month : Nat
  day : Nat
  hour : Nat
  minute : Nat
  second : Nat
  deriving DecidableEq, Repr

/-- Decimal rendering of `n`, zero-padded on the left to `width` digits. -/
def padZero (width n : Nat) : String :=
  String.mk (List.replicate (width - (toString n).length) '0') ++ toString n

/-- Go: `t.Format("2006-01-02 15:04:05")`. -/
def Time.Format (t : Time) : String :=
  padZero 4 t.year ++ "-" ++ padZero 2 t.month ++ "-" ++ padZero 2 t.day ++ " " ++
    padZero 2 t.hour ++ ":" ++ padZero 2 t.minute ++ ":" ++ padZero 2 t.second

/-- Go: `type message struct`. -/
structure message where
  Level : LogLevel
  Message : String
  File : String
  Line : Int
  Time : XsLogger.Time
  deriving DecidableEq, Repr

/-- What `runtime.Caller(2)` reports: the file and line two frames above
`newMessage`. -/
structure Caller where
  file : String
  line : Int
  deriving DecidableEq, Repr

/-- Go, line 49: `newMessage`; `caller` is the result of `runtime.Caller(2)`
and `now` the result of `time.Now()`. -/
def newMessage (level : LogLevel) (msg : String) (caller : Caller) (now : Time) : message :=
  { Level := level, Message := msg, File := caller.file, Line := caller.line, Time := now }

/-- Go `fmt.Sprintf` restricted to the verbs the program uses: `%s` consumes
a string operand, `%d` an int operand, every other character is copied. -/
def Sprintf : List Char → List Operand → List Char
  | [], _ => []
  | [c], _ => [c]
  | c :: v :: cs, args =>
    if c = '%' then
      match args with
      | .str s :: rest =>
        if v = 's' then s.toList ++ Sprintf cs rest else c :: Sprintf (v :: cs) args
      | .int n :: rest =>
        if v = 'd' then (toString n).toList ++ Sprintf cs rest else c :: Sprintf (v :: cs) args
      | [] => c :: Sprintf (v :: cs) args
    else c :: Sprintf (v :: cs) args

/-- The format string of line 147, `"%s\t%s\t%s:%d\t%s\n"`. -/
def lineLayout : List Char :=
  ['%', 's', '\t', '%', 's', '\t', '%', 's', ':', '%', 'd', '\t', '%', 's', '\n']

/-- Go, line 147: the bytes handed to `l.writter.Write` for `msg`. -/
def format (msg : message) : String :=
  String.mk (Sprintf lineLayout
    [.str (colorLevel msg.Level), .str msg.Time.Format, .str msg.File,
     .int msg.Line, .str msg.Message])

/-! ## Sinks and channels -/

/-- A sink (`Writter`, line 54) that records every byte sequence it is
handed; `name` tells one sink from another. -/
structure Writter where
  name : String
  written : List String
  deriving DecidableEq, Repr

/-- Go: `os.Stdout`. -/
def osStdout : Writter := { name := "os.Stdout", written := [] }

/-- One `Write` call on a recording sink. -/
def Writter.Write (w : Writter) (msg : String) : Writter :=
  { w with written := w.written ++ [msg] }

/-- The run-time panics the program can raise. -/
inductive Panic where
  | sendOnClosedChannel
  | closeOfClosedChannel
  | nilDereference
  deriving DecidableEq, Repr

/-- The result of one sequential piece of code: it returns with a new state,
it blocks, or it panics. -/
inductive Outcome (σ : Type) where
  | ok (s : σ)
  | blocked
  | panic (why : Panic)
  deriving DecidableEq, Repr

/-- A Go channel `make(chan α, cap)`: the buffered values oldest first, the
capacity, and whether `close` has been called on it. -/
structure Chan (α : Type) where
  buf : List α
  cap : Nat
  closed : Bool
  deriving DecidableEq, Repr

/-- Go: `make(chan α, size)`. -/
def Chan.make {α : Type} (size : Nat) : Chan α :=
  { buf := [], cap := size, closed := false }

/-- Go: `len(ch)`. -/
def Chan.len {α : Type} (ch : Chan α) : Nat := ch.buf.length

/-- Go: `ch <- x`, as far as the channel alone decides it.  A send on a closed
channel panics; a send with room in the buffer appends; otherwise the sender
blocks until a receiver makes room or, with capacity 0, takes the value (that
hand-over is part of `stepCaller`). -/
def Chan.send {α : Type} (ch : Chan α) (x : α) : Outcome (Chan α) :=
  if ch.closed then .panic .sendOnClosedChannel
  else if ch.buf.length < ch.cap then .ok { ch with buf := ch.buf ++ [x] }
  else .blocked

/-- Go: `<-ch`.  The oldest buffered value if there is one; on an empty
channel the zero value `none` (a nil pointer) once the channel is closed, and
a blocked receiver while it is open. -/
def Chan.recv {α : Type} (ch : Chan α) : Outcome (Option α × Chan α) :=
  match ch.buf with
  | x :: rest => .ok (some x, { ch with buf := rest })
  | [] => if ch.closed then .ok (none, ch) else .blocked

/-- Go: `close(ch)`. -/
def Chan.close {α : Type} (ch : Chan α) : Outcome (Chan α) :=
  if ch.closed then .panic .closeOfClosedChannel
  else .ok { ch with closed := true }

/-! ## The Logger (lines 58-133) -/

/-- Go: `type Logger struct`.  `exit` is `none` for a nil channel and
`writter` is `none` for a nil interface value. -/
structure Logger where
  level : LogLevel
  msgs : Chan message
  size : Nat
  closed : Bool
  exit : Option (Chan Bool)
  time : Time
  writter : Option Writter
  deriving DecidableEq, Repr

/-- Go, lines 70-81: the struct `l` that `NewLogger` builds, with the sink
defaulted to `os.Stdout`, before `l.run()` is called. -/
def NewLogger.l (level : LogLevel) (size : Nat) (w : Option Writter) (now : Time) : Logger :=
  let l : Logger :=
    { level := level, msgs := Chan.make size, closed := false, size := size,
      time := now, exit := some (Chan.make 0), writter := w }
  if l.writter = none then { l with writter := some osStdout } else l

/-- Go, line 86: `NewLoggerWithWritter`; the struct literal names no `exit`
field, so that field is the nil channel. -/
def NewLoggerWithWritter (level : LogLevel) (size : Nat) (w : Option Writter) (now : Time) :
    Logger :=
  { level := level, msgs := Chan.make size, closed := false, size := size,
    time := now, exit := none, writter := w }

/-- Go, line 97. -/
def SetLevel (l : Logger) (level : LogLevel) : Logger := { l with level := level }

/-- Go, line 100. -/
def GetLevel (l : Logger) : LogLevel := l.level

/-- Go, line 103. -/
def SetWritter (l : Logger) (w : Option Writter) : Logger := { l with writter := w }

/-- Go, line 108: `write`, run without interference from another thread. -/
def write (l : Logger) (msg : message) : Outcome Logger :=
  if l.closed then .ok l
  else if msg.Level ≥ l.level then
    match l.msgs.send msg with
    | .ok ch => .ok { l with msgs := ch }
    | .blocked => .blocked
    | .panic why => .panic why
  else .ok l

/-- Go, line 136: `read`, the one-value receive `<-l.msgs`. -/
def read (l : Logger) : Outcome (Option message × Chan message) :=
  l.msgs.recv

/-- Go, line 116. -/
def Log (l : Logger) (level : LogLevel) (msg : String) (caller : Caller) (now : Time) :
    Outcome Logger :=
  write l (newMessage level msg caller now)

def Logger.DEBUG (l : Logger) (msg : String) (caller : Caller) (now : Time) : Outcome Logger :=
  write l (newMessage XsLogger.DEBUG msg caller now)

def Logger.INFO (l : Logger) (msg : String) (caller : Caller) (now : Time) : Outcome Logger :=
  write l (newMessage XsLogger.INFO msg caller now)

def Logger.WARN (l : Logger) (msg : String) (caller : Caller) (now : Time) : Outcome Logger :=
  write l (newMessage XsLogger.WARN msg caller now)

def Logger.ERROR (l : Logger) (msg : String) (caller : Caller) (now : Time) : Outcome Logger :=
  write l (newMessage XsLogger.ERROR msg caller now)

/-! ## The goroutines as a small-step machine (lines 135-168)

Every shared-memory access of the source is one atomic step.  A caller thread
is the list of the atomic statements it still has to run; the consumer is the
anonymous goroutine of `run`.  A panic in any goroutine ends the process. -/

/-- The atomic statements of a caller thread. -/
inductive Instr where
  /-- lines 109-111: `if l.closed { return } else if msg.Level >= l.level` -/
  | check (msg : message)
  /-- line 112: `l.msgs <- msg` -/
  | send (msg : message)
  /-- line 165: `l.closed = true` -/
  | setClosed
  /-- line 166: `close(l.msgs)` -/
  | closeMsgs
  /-- line 167: `<-l.exit` -/
  | recvExit
  deriving DecidableEq, Repr

/-- A call of the public interface, with what `runtime.Caller` and
`time.Now` return inside it. -/
inductive Call where
  /-- `Log`, `DEBUG`, `INFO`, `WARN` or `ERROR`, after `newMessage` -/
  | log (msg : message)
  /-- `Close()` -/
  | close (caller : Caller) (now : Time)
  deriving DecidableEq, Repr

/-- The message that `Close` logs at line 164. -/
def closedMessage (caller : Caller) (now : Time) : message :=
  newMessage lOGSYS "Logger closed" caller now

/-- Go, line 163: `Close`, as its atomic statements: the two statements of
the `write` inside `l.Log(lOGSYS, "Logger closed")` (the `send` is put in by
`check` when the message passes), then lines 165, 166 and 167. -/
def Close (caller : Caller) (now : Time) : List Instr :=
  [.check (closedMessage caller now), .setClosed, .closeMsgs, .recvExit]

/-- The atomic statements of one call: those of `write` for a logging call
(lines 108-114), those of `Close` for a call of `Close`. -/
def Call.code : Call → List Instr
  | .log msg => [.check msg]
  | .close caller now => Close caller now

/-- The atomic statements of a sequence of calls made by one thread. -/
def program : List Call → List Instr
  | [] => []
  | c :: cs => c.code ++ program cs

/-- Where the consumer goroutine (lines 144-150) stands. -/
inductive Consumer where
  /-- about to evaluate `!l.closed || len(l.msgs) > 0` (line 145) -/
  | cond
  /-- about to run `msg := l.read()` (line 146) -/
  | read
  /-- holds `msg` and is about to format and write it (line 147) -/
  | write (msg : Option message)
  /-- out of the loop, at `l.exit <- true` (line 149) -/
  | sendExit
  /-- returned -/
  | done
  deriving DecidableEq, Repr

/-- The whole process: the shared Logger, the consumer, the caller threads
and the panic that ended the process, if any. -/
structure Config where
  l : Logger
  consumer : Consumer
  callers : List (List Instr)
  panicked : Option Panic
  deriving DecidableEq, Repr

/-- A schedulable thread. -/
inductive Tid where
  | consumer
  | caller (i : Nat)
  deriving DecidableEq, Repr

/-- One atomic statement of caller thread `i`; `none` when the thread has
finished or is blocked.  A send that finds no room blocks, except on an
unbuffered queue (capacity 0) with the consumer waiting in `read`: there the
message passes straight to the consumer and both go on. -/
def stepCaller (c : Config) (i : Nat) : Option Config :=
  match c.callers[i]? with
  | none => none
  | some [] => none
  | some (.check msg :: rest) =>
    if c.l.closed then some { c with callers := c.callers.set i rest }
    else if msg.Level ≥ c.l.level then
      some { c with callers := c.callers.set i (.send msg :: rest) }
    else some { c with callers := c.callers.set i rest }
  | some (.send msg :: rest) =>
    match c.l.msgs.send msg with
    | .ok ch => some { c with l := { c.l with msgs := ch }, callers := c.callers.set i rest }
    | .blocked =>
      if c.l.msgs.cap = 0 ∧ c.l.msgs.len = 0 ∧ c.consumer = .read then
        some { c with consumer := .write (some msg), callers := c.callers.set i rest }
      else none
    | .panic why => some { c with panicked := some why }
  | some (.setClosed :: rest) =>
    some { c with l := { c.l with closed := true }, callers := c.callers.set i rest }
  | some (.closeMsgs :: rest) =>
    match c.l.msgs.close with
    | .ok ch => some { c with l := { c.l with msgs := ch }, callers := c.callers.set i rest }
    | .blocked => none
    | .panic why => some { c with panicked := some why }
  | some (.recvExit :: rest) =>
    match c.l.exit with
    | none => none
    | some _ =>
      if c.consumer = .sendExit then
        some { c with consumer := .done, callers := c.callers.set i rest }
      else none

/-- One atomic statement of the consumer goroutine.  The send on the
unbuffered `exit` channel completes together with the matching receive, as
part of the receiver's step. -/
def stepConsumer (c : Config) : Option Config :=
  match c.consumer with
  | .cond =>
    some { c with consumer := if !c.l.closed || c.l.msgs.len > 0 then .read else .sendExit }
  | .read =>
    match read c.l with
    | .ok (msg, ch) => some { c with l := { c.l with msgs := ch }, consumer := .write msg }
    | .blocked => none
    | .panic why => some { c with panicked := some why }
  | .write none => some { c with panicked := some .nilDereference }
  | .write (some msg) =>
    match c.l.writter with
    | none => some { c with panicked := some .nilDereference }
    | some w =>
      some { c with l := { c.l with writter := some (w.Write (format msg)) }, consumer := .cond }
  | .sendExit => none
  | .done => none

/-- One step of thread `t`; no thread runs after a panic. -/
def step (c : Config) (t : Tid) : Option Config :=
  if c.panicked.isSome then none
  else
    match t with
    | .consumer => stepConsumer c
    | .caller i => stepCaller c i

/-- Run a schedule: the threads take one step each in the order given;
`none` when a scheduled thread cannot step. -/
def exec (c : Config) : List Tid → Option Config
  | [] => some c
  | t :: ts =>
    match step c t with
    | none => none
    | some c1 => exec c1 ts

/-- Go, line 141: `run`, on a Logger no other thread uses yet.  It logs
"Logger started" and then starts the consumer; `threads` are the caller
threads that use the returned Logger.  (The goroutine of `catchSignal` only
acts on a process signal: it is one more caller thread running `Close`.) -/
def run (l : Logger) (caller : Caller) (now : Time) (threads : List (List Call)) :
    Outcome Config :=
  match Log l lOGSYS "Logger started" caller now with
  | .ok l1 =>
    .ok { l := l1, consumer := .cond, callers := threads.map program, panicked := none }
  | .blocked => .blocked
  | .panic why => .panic why

/-- Go, line 69: `NewLogger`. -/
def NewLogger (level : LogLevel) (size : Nat) (w : Option Writter) (now : Time)
    (caller : Caller) (now1 : Time) (threads : List (List Call)) : Outcome Config :=
  run (NewLogger.l level size w now) caller now1 threads

/-- The sink output of a configuration: the writes issued so far. -/
def Config.out (c : Config) : List String :=
  match c.l.writter with
  | none => []
  | some w => w.written

/-! ## Vocabulary of the statements -/

/-- The calls of a submitted sequence that pass the threshold `lvl`, in
order. -/
def accepted (lvl : LogLevel) (msgs : List message) : List message :=
  msgs.filter (fun m => decide (lvl ≤ m.Level))

/-- The message the consumer has dequeued and not written yet, if any. -/
def Consumer.hand : Consumer → List message
  | .write (some msg) => [msg]
  | _ => []

/-- The messages that were enqueued and are not written yet, oldest first:
the one in the consumer's hand, then the queue. -/
def Config.pending (c : Config) : List message :=
  c.consumer.hand ++ c.l.msgs.buf

/-- The lines written so far followed by the lines of the pending
messages. -/
def Config.stream (c : Config) : List String :=
  c.out ++ c.pending.map format

/-- The messages a thread running `code` alone is still going to enqueue,
given the threshold and the current value of `l.closed`. -/
def willEnqueue (lvl : LogLevel) : Bool → List Instr → List message
  | _, [] => []
  | cl, .check msg :: rest =>
    if !cl && decide (lvl ≤ msg.Level) then msg :: willEnqueue lvl cl rest
    else willEnqueue lvl cl rest
  | cl, .send msg :: rest => msg :: willEnqueue lvl cl rest
  | _, .setClosed :: rest => willEnqueue lvl true rest
  | cl, .closeMsgs :: rest => willEnqueue lvl cl rest
  | cl, .recvExit :: rest => willEnqueue lvl cl rest

/-- No `send` statement occurs in `code`. -/
def noSend : List Instr → Bool
  | [] => true
  | .send _ :: _ => false
  | _ :: rest => noSend rest

/-- The consumer is inside its loop. -/
def Consumer.inLoop : Consumer → Bool
  | .cond => true
  | .read => true
  | .write (some _) => true
  | _ => false

/-- In `code`, every `close(l.msgs)` comes after `l.closed = true`, given
whether `closed` is already set (`flag`). -/
def closesAfterSet : Bool → List Instr → Bool
  | _, [] => true
  | flag, .closeMsgs :: rest => flag && closesAfterSet flag rest
  | _, .setClosed :: rest => closesAfterSet true rest
  | flag, _ :: rest => closesAfterSet flag rest

/-- A process whose Logger is running: `closed` is false, the queue is open
and holds `buf`, the sink `w` is present and no goroutine has panicked. -/
def runningConfig (lvl : LogLevel) (cap size : Nat) (exit : Option (Chan Bool)) (time : Time)
    (buf : List message) (w : Writter) (k : Consumer) (callers : List (List Instr)) : Config :=
  { l := { level := lvl, msgs := { buf := buf, cap := cap, closed := false }, size := size,
           closed := false, exit := exit, time := time, writter := some w },
    consumer := k, callers := callers, panicked := none }

/-! ## Concrete values used to exercise the definitions -/

def sampleTime : Time :=
  { year := 2024, month := 1, day := 2, hour := 3, minute := 4, second := 5 }

/-- A call site in application code. -/
def userSite : Caller := { file := "main.go", line := 10 }

/-- Frame 2 above `newMessage` when `run` logs "Logger started" (line 143). -/
def runSite : Caller := { file := "logger.go", line := 143 }

/-- Frame 2 above `newMessage` when `Close` logs "Logger closed" (line 164). -/
def closeSite : Caller := { file := "logger.go", line := 164 }

/-- A recording sink supplied by the caller. -/
def recorder : Writter := { name := "recorder", written := [] }

/-- A Logger as `NewLogger(INFO, 10, recorder)` leaves it once the consumer
has written "Logger started". -/
def idleLogger : Logger :=
  { level := INFO, msgs := Chan.make 10, size := 10, closed := false,
    exit := some (Chan.make 0), time := sampleTime,
    writter := some (recorder.Write
      (format (newMessage lOGSYS "Logger started" runSite sampleTime))) }

/-- The Logger `idleLogger` after a completed `Close()`. -/
def closedLogger : Logger :=
  { idleLogger with
    closed := true
    msgs := { buf := [], cap := 10, closed := true }
    writter := some ((recorder.Write
      (format (newMessage lOGSYS "Logger started" runSite sampleTime))).Write
      (format (closedMessage closeSite sampleTime))) }

/-- The message that `run` logs at line 143, at the sample time. -/
def startedMessage : message := newMessage lOGSYS "Logger started" runSite sampleTime

/-- The Logger that `NewLogger(INFO, 10, recorder)` returns: "Logger started"
is queued and nothing is written yet. -/
def freshLogger : Logger :=
  { level := INFO, msgs := { buf := [startedMessage], cap := 10, closed := false },
    size := 10, closed := false, exit := some (Chan.make 0), time := sampleTime,
    writter := some recorder }

/-- Scenario A: `DEBUG("x")`, `INFO("y")`, `Close()` from one thread. -/
def scenarioA : List Call :=
  [.log (newMessage DEBUG "x" userSite sampleTime),
   .log (newMessage INFO "y" userSite sampleTime),
   .close closeSite sampleTime]

/-- The process right after `NewLogger(INFO, 10, recorder)` has returned to
the thread that is about to run scenario A. -/
def scenarioAStart : Config :=
  { l := freshLogger, consumer := .cond, callers := [program scenarioA], panicked := none }

/-- The caller runs scenario A up to its wait on `exit`, then the consumer
drains the queue, then `Close` returns. -/
def scenarioASchedule : List Tid :=
  [.caller 0, .caller 0, .caller 0, .caller 0, .caller 0, .caller 0, .caller 0,
   .consumer, .consumer, .consumer, .consumer, .consumer, .consumer, .consumer, .consumer,
   .consumer, .consumer, .caller 0]

/-- Two ERROR calls on a running Logger of capacity 1. -/
def twoErrors : List message :=
  [newMessage ERROR "a" userSite sampleTime, newMessage ERROR "b" userSite sampleTime]

/-- A running Logger of capacity 1 with an empty queue, and one thread about
to make the calls `twoErrors`. -/
def narrowStart : Config :=
  { l := { freshLogger with msgs := Chan.make 1, size := 1 },
    consumer := .cond, callers := [program (twoErrors.map .log)], panicked := none }

/-- The producer fills the single slot, then has to wait until the consumer
has taken the first message before it can enqueue the second. -/
def narrowSchedule : List Tid :=
  [.caller 0, .caller 0, .caller 0, .consumer, .consumer, .caller 0, .consumer, .consumer]

/-- Thread 0 calls `Close()` while thread 1 calls `ERROR("late")` on the
Logger returned by `NewLogger(INFO, 10, recorder)`. -/
def raceStart : Config :=
  { l := freshLogger, consumer := .cond,
    callers := [program [.close closeSite sampleTime],
                program [.log (newMessage ERROR "late" userSite sampleTime)]],
    panicked := none }

/-- Thread 1 passes the `closed` test, thread 0 runs `Close` up to and
including `close(l.msgs)`, then thread 1 sends. -/
def panicSchedule : List Tid :=
  [.caller 1, .caller 0, .caller 0, .caller 0, .caller 0, .caller 1]

/-- Thread 1 passes the `closed` test, thread 0 enqueues "Logger closed",
thread 1 enqueues its message, thread 0 closes, the consumer drains, `Close`
returns. -/
def lateSchedule : List Tid :=
  [.caller 1, .caller 0, .caller 0, .caller 1, .caller 0, .caller 0,
   .consumer, .consumer, .consumer, .consumer, .consumer, .consumer, .consumer, .consumer,
   .consumer, .consumer, .caller 0]

/-- Thread 1 passes the `closed` test, thread 0 sets `closed`, the consumer
drains and leaves its loop, thread 1 enqueues its message, thread 0 closes the
queue and `Close` returns. -/
def lostSchedule : List Tid :=
  [.caller 1, .caller 0, .caller 0, .caller 0,
   .consumer, .consumer, .consumer, .consumer, .consumer, .consumer, .consumer,
   .caller 1, .caller 0, .caller 0]

/-- One thread calls `Close()` on the Logger returned by
`NewLogger(INFO, 10, recorder)`. -/
def closeStart : Config :=
  { l := freshLogger, consumer := .cond, callers := [program [.close closeSite sampleTime]],
    panicked := none }

/-- The consumer writes "Logger started" and suspends in `read` on the empty
queue. -/
def suspendSchedule : List Tid :=
  [.consumer, .consumer, .consumer, .consumer]

/-- After `suspendSchedule`: `Close` enqueues "Logger closed", the consumer
writes it and suspends in `read` again, `Close` sets `closed` and closes the
queue, the consumer receives from the closed queue and formats what it got. -/
def nilSchedule : List Tid :=
  suspendSchedule ++
    [.caller 0, .caller 0, .consumer, .consumer, .consumer, .caller 0, .caller 0,
     .consumer, .consumer]

/-! ## Invariants of a process with one caller thread -/

/-- The accounting invariant: the lines written, the lines of the pending
messages and of the messages `code` is still going to enqueue make up the
constant `total`; a `send` only ever stands at the head of `code`, and never
once `closed` is set; the consumer leaves its loop only with `closed` set and
the queue empty. -/
structure SoloInv (lvl : LogLevel) (total : List String) (c : Config) (code : List Instr) :
    Prop where
  level : c.l.level = lvl
  callers : c.callers = [code]
  total : c.stream ++ (willEnqueue lvl c.l.closed code).map format = total
  tail : noSend code.tail = true
  closed : c.l.closed = true → noSend code = true
  drained : c.consumer = .sendExit ∨ c.consumer = .done →
    c.l.closed = true ∧ c.l.msgs.buf = []

/-- While the thread only logs: the flags stay as they are, the consumer
stays in its loop, and the thread has settled the calls `done` and still has
to run the calls `todo` (the first of them possibly waiting in `send`). -/
structure LogInv (lvl : LogLevel) (logs : List message) (c : Config)
    (done todo : List message) : Prop where
  split : logs = done ++ todo
  code : c.callers = [program (todo.map .log)] ∨
    ∃ m rest, todo = m :: rest ∧ lvl ≤ m.Level ∧
      c.callers = [.send m :: program (rest.map .log)]
  level : c.l.level = lvl
  running : c.l.closed = false
  chan : c.l.msgs.closed = false
  sink : c.l.writter ≠ none
  loop : c.consumer.inLoop = true
  alive : c.panicked = none

/-- The thread still has the receive on `exit` as its last statement, or it
has returned and the consumer has returned with it; and the queue is closed
unless `close(l.msgs)` is still ahead. -/
structure CloseInv (c : Config) (code : List Instr) : Prop where
  callers : c.callers = [code]
  last : code.getLast? = some .recvExit ∨ (code = [] ∧ c.consumer = .done)
  chan : c.l.msgs.closed = true ∨ .closeMsgs ∈ code

/-! ## The line format -/

theorem format_eq (m : message) :
    format m = colorLevel m.Level ++ "\t" ++ m.Time.Format ++ "\t" ++ m.File ++ ":" ++
      toString m.Line ++ "\t" ++ m.Message ++ "\n" := by
  apply String.ext
  simp [format, Sprintf, lineLayout, String.data_append]

theorem colorLevel_eq (level : LogLevel) :
    colorLevel level =
      "\x1b[1;" ++ toString (logColerMap level) ++ "m" ++ logLevelMap level ++ "\x1b[0m" := by
  apply String.ext
  simp [colorLevel, Sprint, Operand.render, Operand.isStr, String.data_append]

/-! ## One caller thread and the consumer -/

theorem noSend_tail {code : List Instr} (h : noSend code = true) : noSend code.tail = true := by
  cases code with
  | nil => rfl
  | cons a r => cases a <;> simp_all [noSend]

theorem willEnqueue_noSend (lvl : LogLevel) {code : List Instr} (h : noSend code = true) :
    willEnqueue lvl true code = [] := by
  induction code with
  | nil => rfl
  | cons a r ih => cases a <;> simp_all [noSend, willEnqueue]

theorem soloInv_stepConsumer {lvl : LogLevel} {total : List String} {c c1 : Config}
    {code : List Instr} (inv : SoloInv lvl total c code) (h : stepConsumer c = some c1) :
    SoloInv lvl total c1 code := by
  obtain ⟨hl, hc, ht, htl, hcl, hd⟩ := inv
  cases hcons : c.consumer with
  | cond =>
    simp only [XsLogger.stepConsumer, hcons, Option.some.injEq] at h
    subst h
    refine ⟨hl, hc, ?_, htl, hcl, ?_⟩
    · by_cases hcond : (!c.l.closed || decide (c.l.msgs.len > 0)) = true <;>
        simpa [Config.stream, Config.pending, Config.out, Consumer.hand, hcons, hcond] using ht
    · by_cases hcond : (!c.l.closed || decide (c.l.msgs.len > 0)) = true
      · simp [hcond]
      · intro _
        simp [Chan.len] at hcond
        exact ⟨hcond.1, by simpa using hcond.2⟩
  | read =>
    simp only [XsLogger.stepConsumer, hcons, read, Chan.recv] at h
    cases hbuf : c.l.msgs.buf with
    | nil =>
      rw [hbuf] at h
      by_cases hch : c.l.msgs.closed = true
      · simp [hch] at h
        subst h
        refine ⟨hl, hc, ?_, htl, hcl, ?_⟩
        · simpa [Config.stream, Config.pending, Config.out, Consumer.hand, hcons, hbuf] using ht
        · simp
      · simp [hch] at h
    | cons m rest =>
      rw [hbuf] at h
      simp at h
      subst h
      refine ⟨hl, hc, ?_, htl, hcl, ?_⟩
      · simpa [Config.stream, Config.pending, Config.out, Consumer.hand, hcons, hbuf] using ht
      · simp
  | write msg =>
    cases msg with
    | none =>
      simp only [XsLogger.stepConsumer, hcons, Option.some.injEq] at h
      subst h
      exact ⟨hl, hc, by simpa [Config.stream, Config.pending, Config.out, hcons] using ht, htl,
        hcl, by simp⟩
    | some m =>
      simp only [XsLogger.stepConsumer, hcons] at h
      cases hw : c.l.writter with
      | none =>
        rw [hw] at h
        simp at h
        subst h
        exact ⟨hl, hc, by simpa [Config.stream, Config.pending, Config.out, hcons] using ht,
          htl, hcl, by simp⟩
      | some w =>
        rw [hw] at h
        simp at h
        subst h
        refine ⟨hl, hc, ?_, htl, hcl, ?_⟩
        · simpa [Config.stream, Config.pending, Config.out, Consumer.hand, hcons, hw,
            Writter.Write] using ht
        · simp
  | sendExit => simp [XsLogger.stepConsumer, hcons] at h
  | done => simp [XsLogger.stepConsumer, hcons] at h

theorem soloInv_stepCaller {lvl : LogLevel} {total : List String} {c c1 : Config}
    {code : List Instr} {i : Nat} (inv : SoloInv lvl total c code)
    (h : stepCaller c i = some c1) : ∃ code1, SoloInv lvl total c1 code1 := by
  obtain ⟨hl, hc, ht, htl, hcl, hd⟩ := inv
  cases i with
  | succ j => simp [XsLogger.stepCaller, hc] at h
  | zero =>
    cases code with
    | nil => simp [XsLogger.stepCaller, hc] at h
    | cons ins rest =>
      cases ins with
      | check m =>
        simp only [XsLogger.stepCaller, hc, List.getElem?_cons_zero] at h
        by_cases hclosed : c.l.closed = true
        · simp [hclosed] at h
          subst h
          refine ⟨rest, hl, by simp, ?_, noSend_tail htl, ?_, hd⟩
          · simpa [willEnqueue, hclosed] using ht
          · intro _; simpa [noSend] using hcl hclosed
        · by_cases hlev : c.l.level ≤ m.Level
          · simp [hclosed, hlev] at h
            subst h
            refine ⟨.send m :: rest, hl, by simp, ?_, htl, ?_, hd⟩
            · have hlev1 : lvl ≤ m.Level := hl ▸ hlev
              simpa [willEnqueue, hclosed, hlev1] using ht
            · intro hcl1; exact absurd hcl1 hclosed
          · simp [hclosed, hlev] at h
            subst h
            refine ⟨rest, hl, by simp, ?_, noSend_tail htl, ?_, hd⟩
            · have hlev1 : ¬ lvl ≤ m.Level := hl ▸ hlev
              simpa [willEnqueue, hclosed, hlev1] using ht
            · intro hcl1; exact absurd hcl1 hclosed
      | send m =>
        simp only [XsLogger.stepCaller, hc, List.getElem?_cons_zero, Chan.send] at h
        have hopen : ¬ c.l.closed = true := by
          intro hcl1
          simpa [noSend] using hcl hcl1
        by_cases hch : c.l.msgs.closed = true
        · simp [hch] at h
          subst h
          exact ⟨.send m :: rest, hl, rfl, ht, htl, hcl, hd⟩
        · by_cases hroom : c.l.msgs.buf.length < c.l.msgs.cap
          · simp [hch, hroom] at h
            subst h
            refine ⟨rest, hl, by simp, ?_, noSend_tail htl, ?_, ?_⟩
            · simpa [willEnqueue, Config.stream, Config.pending, Config.out] using ht
            · intro hcl1; exact absurd hcl1 hopen
            · intro hcons
              exact absurd (hd hcons).1 hopen
          · by_cases hrv : c.l.msgs.cap = 0 ∧ c.l.msgs.len = 0 ∧ c.consumer = .read
            · simp [hch, hroom, hrv] at h
              subst h
              have hbuf : c.l.msgs.buf = [] := by
                have := hrv.2.1
                simpa [Chan.len] using this
              refine ⟨rest, hl, by simp, ?_, noSend_tail htl, ?_, ?_⟩
              · simpa [willEnqueue, Config.stream, Config.pending, Config.out, Consumer.hand,
                  hrv.2.2, hbuf] using ht
              · intro hcl1; exact absurd hcl1 hopen
              · intro hcons; simp at hcons
            · simp [hch, hroom, hrv] at h
      | setClosed =>
        simp only [XsLogger.stepCaller, hc, List.getElem?_cons_zero, Option.some.injEq] at h
        subst h
        refine ⟨rest, hl, by simp, ?_, noSend_tail htl, ?_, ?_⟩
        · simpa [willEnqueue, Config.stream, Config.pending, Config.out] using ht
        · intro _; exact htl
        · intro hcons
          exact ⟨rfl, (hd hcons).2⟩
      | closeMsgs =>
        simp only [XsLogger.stepCaller, hc, List.getElem?_cons_zero, Chan.close] at h
        by_cases hch : c.l.msgs.closed = true
        · simp [hch] at h
          subst h
          exact ⟨.closeMsgs :: rest, hl, rfl, ht, htl, hcl, hd⟩
        · simp [hch] at h
          subst h
          refine ⟨rest, hl, by simp, ?_, noSend_tail htl, ?_, ?_⟩
          · simpa [willEnqueue, Config.stream, Config.pending, Config.out] using ht
          · intro hcl1; simpa [noSend] using hcl hcl1
          · exact hd
      | recvExit =>
        simp only [XsLogger.stepCaller, hc, List.getElem?_cons_zero] at h
        cases hex : c.l.exit with
        | none => simp [hex] at h
        | some e =>
          by_cases hcons : c.consumer = .sendExit
          · simp [hex, hcons] at h
            subst h
            refine ⟨rest, hl, by simp, ?_, noSend_tail htl, ?_, ?_⟩
            · simpa [willEnqueue, Config.stream, Config.pending, Config.out, Consumer.hand,
                hcons] using ht
            · intro hcl1; simpa [noSend] using hcl hcl1
            · intro _; exact hd (Or.inl hcons)
          · simp [hex, hcons] at h

theorem soloInv_step {lvl : LogLevel} {total : List String} {c c1 : Config}
    {code : List Instr} {t : Tid} (inv : SoloInv lvl total c code)
    (h : XsLogger.step c t = some c1) : ∃ code1, SoloInv lvl total c1 code1 := by
  unfold XsLogger.step at h
  split at h
  · cases h
  · cases t with
    | consumer => exact ⟨code, soloInv_stepConsumer inv h⟩
    | caller i => exact soloInv_stepCaller inv h

theorem soloInv_exec {lvl : LogLevel} {total : List String} (sched : List Tid) :
    ∀ {c c1 : Config} {code : List Instr}, SoloInv lvl total c code →
      XsLogger.exec c sched = some c1 → ∃ code1, SoloInv lvl total c1 code1 := by
  induction sched with
  | nil =>
    intro c c1 code inv h
    simp only [XsLogger.exec, Option.some.injEq] at h
    subst h
    exact ⟨code, inv⟩
  | cons t ts ih =>
    intro c c1 code inv h
    simp only [XsLogger.exec] at h
    cases hs : XsLogger.step c t with
    | none => rw [hs] at h; cases h
    | some c2 =>
      rw [hs] at h
      obtain ⟨code2, inv2⟩ := soloInv_step inv hs
      exact ih inv2 h

theorem program_append (a b : List Call) : program (a ++ b) = program a ++ program b := by
  induction a with
  | nil => rfl
  | cons x xs ih => simp [program, ih]

theorem noSend_program (calls : List Call) : noSend (program calls) = true := by
  induction calls with
  | nil => rfl
  | cons x xs ih => cases x <;> simpa [program, Call.code, Close, noSend] using ih

theorem willEnqueue_logs (lvl : LogLevel) (logs : List message) (rest : List Instr) :
    willEnqueue lvl false (program (logs.map .log) ++ rest) =
      accepted lvl logs ++ willEnqueue lvl false rest := by
  induction logs with
  | nil => simp [program, accepted]
  | cons m ms ih =>
    by_cases h : lvl ≤ m.Level <;>
      simp [program, Call.code, Close, willEnqueue, accepted, h, List.filter_cons] at ih ⊢ <;>
      exact ih

theorem logInv_stepConsumer {lvl : LogLevel} {logs done todo : List message} {c c1 : Config}
    (inv : LogInv lvl logs c done todo) (h : stepConsumer c = some c1) :
    LogInv lvl logs c1 done todo := by
  obtain ⟨hs, hcode, hl, hr, hch, hw, hloop, ha⟩ := inv
  cases hcons : c.consumer with
  | cond =>
    simp only [XsLogger.stepConsumer, hcons, Option.some.injEq] at h
    subst h
    exact ⟨hs, hcode, hl, hr, hch, hw, by simp [hr, Consumer.inLoop], ha⟩
  | read =>
    simp only [XsLogger.stepConsumer, hcons, read, Chan.recv] at h
    cases hbuf : c.l.msgs.buf with
    | nil => simp [hbuf, hch] at h
    | cons m rest =>
      rw [hbuf] at h
      simp at h
      subst h
      exact ⟨hs, hcode, hl, hr, hch, hw, by simp [Consumer.inLoop], ha⟩
  | write msg =>
    cases msg with
    | none => simp [hcons, Consumer.inLoop] at hloop
    | some m =>
      simp only [XsLogger.stepConsumer, hcons] at h
      cases hwr : c.l.writter with
      | none => exact absurd hwr hw
      | some w =>
        rw [hwr] at h
        simp at h
        subst h
        exact ⟨hs, hcode, hl, hr, hch, by simp, by simp [Consumer.inLoop], ha⟩
  | sendExit => simp [hcons, Consumer.inLoop] at hloop
  | done => simp [hcons, Consumer.inLoop] at hloop

theorem logInv_stepCaller {lvl : LogLevel} {logs done todo : List message} {c c1 : Config}
    {i : Nat} (inv : LogInv lvl logs c done todo) (h : stepCaller c i = some c1) :
    ∃ done1 todo1, LogInv lvl logs c1 done1 todo1 := by
  obtain ⟨hs, hcode, hl, hr, hch, hw, hloop, ha⟩ := inv
  cases i with
  | succ j => rcases hcode with hc | ⟨m, rest, _, _, hc⟩ <;> simp [XsLogger.stepCaller, hc] at h
  | zero =>
    rcases hcode with hc | ⟨m, rest, htodo, hlev, hc⟩
    · cases todo with
      | nil => simp [XsLogger.stepCaller, hc, program] at h
      | cons m rest =>
        simp only [XsLogger.stepCaller, hc, List.map_cons, program, Call.code, Close,
          List.cons_append, List.nil_append, List.getElem?_cons_zero, hr] at h
        by_cases hlev : c.l.level ≤ m.Level
        · simp [hlev] at h
          subst h
          exact ⟨done, m :: rest, hs, Or.inr ⟨m, rest, rfl, hl ▸ hlev, by simp⟩, hl, hr,
            hch, hw, hloop, ha⟩
        · simp [hlev] at h
          subst h
          exact ⟨done ++ [m], rest, by simp [hs], Or.inl (by simp), hl, hr, hch, hw, hloop, ha⟩
    · simp only [XsLogger.stepCaller, hc, List.getElem?_cons_zero, Chan.send, hch] at h
      by_cases hroom : c.l.msgs.buf.length < c.l.msgs.cap
      · simp [hroom] at h
        subst h
        exact ⟨done ++ [m], rest, by simp [hs, htodo], Or.inl (by simp), hl, hr, rfl, hw, hloop,
          ha⟩
      · by_cases hrv : c.l.msgs.cap = 0 ∧ c.l.msgs.len = 0 ∧ c.consumer = .read
        · simp [hroom, hrv] at h
          subst h
          exact ⟨done ++ [m], rest, by simp [hs, htodo], Or.inl (by simp), hl, hr, hch, hw,
            by simp [Consumer.inLoop], ha⟩
        · simp [hroom, hrv] at h

theorem logInv_exec {lvl : LogLevel} {logs : List message} (sched : List Tid) :
    ∀ {c c1 : Config} {done todo : List message}, LogInv lvl logs c done todo →
      XsLogger.exec c sched = some c1 → ∃ done1 todo1, LogInv lvl logs c1 done1 todo1 := by
  induction sched with
  | nil =>
    intro c c1 done todo inv h
    simp only [XsLogger.exec, Option.some.injEq] at h
    subst h
    exact ⟨done, todo, inv⟩
  | cons t ts ih =>
    intro c c1 done todo inv h
    simp only [XsLogger.exec] at h
    cases hs : XsLogger.step c t with
    | none => rw [hs] at h; cases h
    | some c2 =>
      rw [hs] at h
      have hstep := hs
      unfold XsLogger.step at hstep
      rw [inv.alive] at hstep
      cases t with
      | consumer => exact ih (logInv_stepConsumer inv hstep) h
      | caller i =>
        obtain ⟨d2, t2, inv2⟩ := logInv_stepCaller inv hstep
        exact ih inv2 h

theorem stepConsumer_callers {c c1 : Config} (h : stepConsumer c = some c1) :
    c1.callers = c.callers ∧ c.consumer ≠ .done ∧ c1.l.msgs.closed = c.l.msgs.closed := by
  cases hcons : c.consumer with
  | cond =>
    simp only [stepConsumer, hcons, Option.some.injEq] at h
    subst h; simp
  | read =>
    simp only [stepConsumer, hcons, read, Chan.recv] at h
    cases hbuf : c.l.msgs.buf with
    | nil =>
      rw [hbuf] at h
      by_cases hch : c.l.msgs.closed = true
      · simp [hch] at h
        subst h; simp
      · simp [hch] at h
    | cons m rest =>
      rw [hbuf] at h
      simp at h
      subst h; simp
  | write msg =>
    cases msg with
    | none =>
      simp only [stepConsumer, hcons, Option.some.injEq] at h
      subst h; simp
    | some m =>
      simp only [stepConsumer, hcons] at h
      cases hw : c.l.writter with
      | none =>
        rw [hw] at h
        simp at h
        subst h; simp
      | some w =>
        rw [hw] at h
        simp at h
        subst h; simp
  | sendExit => simp [stepConsumer, hcons] at h
  | done => simp [stepConsumer, hcons] at h

theorem closeInv_stepConsumer {c c1 : Config} {code : List Instr} (inv : CloseInv c code)
    (h : stepConsumer c = some c1) : CloseInv c1 code := by
  obtain ⟨hc, hlast, hchan⟩ := inv
  obtain ⟨h1, h2, h3⟩ := stepConsumer_callers h
  refine ⟨h1.trans hc, ?_, by rw [h3]; exact hchan⟩
  rcases hlast with hl | ⟨_, hd⟩
  · exact Or.inl hl
  · exact absurd hd h2

theorem getLast?_tail_of_ne {ins : Instr} {rest : List Instr} (x : Instr)
    (h : (ins :: rest).getLast? = some .recvExit) (hne : ins ≠ .recvExit) :
    rest.getLast? = some .recvExit ∧ (x :: rest).getLast? = some .recvExit := by
  cases rest with
  | nil => simp at h; exact absurd h hne
  | cons a r => simpa [List.getLast?_cons_cons] using h

theorem closeInv_stepCaller {c c1 : Config} {code : List Instr} {i : Nat}
    (inv : CloseInv c code) (h : stepCaller c i = some c1) : ∃ code1, CloseInv c1 code1 := by
  obtain ⟨hc, hlast, hchan⟩ := inv
  cases i with
  | succ j => simp [XsLogger.stepCaller, hc] at h
  | zero =>
    cases code with
    | nil => simp [XsLogger.stepCaller, hc] at h
    | cons ins rest =>
      have hl : (ins :: rest).getLast? = some .recvExit := by
        rcases hlast with hl | ⟨h0, _⟩
        · exact hl
        · cases h0
      cases ins with
      | check m =>
        have hr := getLast?_tail_of_ne (.send m) hl (by simp)
        have hch : c.l.msgs.closed = true ∨ Instr.closeMsgs ∈ rest := by simpa using hchan
        simp only [XsLogger.stepCaller, hc, List.getElem?_cons_zero] at h
        split at h
        · cases h; exact ⟨rest, by simp, Or.inl hr.1, hch⟩
        · split at h
          · cases h; exact ⟨.send m :: rest, by simp, Or.inl hr.2, by simpa using hch⟩
          · cases h; exact ⟨rest, by simp, Or.inl hr.1, hch⟩
      | send m =>
        have hr := getLast?_tail_of_ne (.send m) hl (by simp)
        have hch : c.l.msgs.closed = true ∨ Instr.closeMsgs ∈ rest := by simpa using hchan
        simp only [XsLogger.stepCaller, hc, List.getElem?_cons_zero, Chan.send] at h
        by_cases h1 : c.l.msgs.closed = true
        · simp [h1] at h
          cases h; exact ⟨.send m :: rest, rfl, Or.inl hl, hchan⟩
        · by_cases h2 : c.l.msgs.buf.length < c.l.msgs.cap
          · simp [h1, h2] at h
            cases h; exact ⟨rest, by simp, Or.inl hr.1, Or.inr (hch.resolve_left h1)⟩
          · by_cases hrv : c.l.msgs.cap = 0 ∧ c.l.msgs.len = 0 ∧ c.consumer = .read
            · simp [h1, h2, hrv] at h
              cases h; exact ⟨rest, by simp, Or.inl hr.1, hch⟩
            · simp [h1, h2, hrv] at h
      | setClosed =>
        have hr := getLast?_tail_of_ne .setClosed hl (by simp)
        have hch : c.l.msgs.closed = true ∨ Instr.closeMsgs ∈ rest := by simpa using hchan
        simp only [XsLogger.stepCaller, hc, List.getElem?_cons_zero, Option.some.injEq] at h
        cases h; exact ⟨rest, by simp, Or.inl hr.1, hch⟩
      | closeMsgs =>
        have hr := getLast?_tail_of_ne .setClosed hl (by simp)
        simp only [XsLogger.stepCaller, hc, List.getElem?_cons_zero, Chan.close] at h
        by_cases h1 : c.l.msgs.closed = true
        · simp [h1] at h
          cases h; exact ⟨.closeMsgs :: rest, rfl, Or.inl hl, hchan⟩
        · simp [h1] at h
          cases h; exact ⟨rest, by simp, Or.inl hr.1, Or.inl rfl⟩
      | recvExit =>
        have hch : c.l.msgs.closed = true ∨ Instr.closeMsgs ∈ rest := by simpa using hchan
        simp only [XsLogger.stepCaller, hc, List.getElem?_cons_zero] at h
        split at h
        · cases h
        · split at h
          · cases h
            cases rest with
            | nil => exact ⟨[], by simp, Or.inr ⟨rfl, rfl⟩, hch⟩
            | cons a r =>
              exact ⟨a :: r, by simp, Or.inl (by simpa [List.getLast?_cons_cons] using hl), hch⟩
          · cases h

theorem closeInv_exec (sched : List Tid) :
    ∀ {c c1 : Config} {code : List Instr}, CloseInv c code →
      XsLogger.exec c sched = some c1 → ∃ code1, CloseInv c1 code1 := by
  induction sched with
  | nil =>
    intro c c1 code inv h
    simp only [XsLogger.exec, Option.some.injEq] at h
    subst h
    exact ⟨code, inv⟩
  | cons t ts ih =>
    intro c c1 code inv h
    simp only [XsLogger.exec] at h
    cases hs : XsLogger.step c t with
    | none => rw [hs] at h; cases h
    | some c2 =>
      rw [hs] at h
      have hstep := hs
      unfold XsLogger.step at hstep
      split at hstep
      · cases hstep
      · cases t with
        | consumer => exact ih (closeInv_stepConsumer inv hstep) h
        | caller i =>
          obtain ⟨code2, inv2⟩ := closeInv_stepCaller inv hstep
          exact ih inv2 h

theorem inLoop_not_exit {k : Consumer} (h : k.inLoop = true) :
    ¬ (k = .sendExit ∨ k = .done) := by
  rintro (h1 | h1) <;> simp [h1, Consumer.inLoop] at h

theorem program_getLast (calls : List Call) (caller : Caller) (now : Time) :
    (program (calls ++ [.close caller now])).getLast? = some .recvExit := by
  simp [program_append, program, Call.code, Close, List.getLast?_append]

theorem accepted_append (lvl : LogLevel) (a b : List message) :
    accepted lvl (a ++ b) = accepted lvl a ++ accepted lvl b := by
  simp [accepted]

/-- Shared by the drain results.  One thread logs `logs` and then calls
`Close` on a running Logger whose threshold is at most `lOGSYS`; once that
thread has returned, the queue is empty and closed, the consumer has returned,
and the sink holds the lines of all pending and accepted messages followed by
"Logger closed". -/
theorem solo_close_drains (c0 : Config) (logs : List message) (caller : Caller) (now : Time)
    (sched : List Tid) (c : Config)
    (hcode : c0.callers = [program (logs.map .log ++ [.close caller now])])
    (hrun : c0.l.closed = false) (hloop : c0.consumer.inLoop = true)
    (hlevel : c0.l.level ≤ lOGSYS) (hexec : exec c0 sched = some c)
    (hret : c.callers = [[]]) :
    c.l.msgs.buf = [] ∧ c.consumer = .done ∧ c.l.closed = true ∧ c.l.msgs.closed = true ∧
      c.out = c0.out ++ (c0.pending ++ accepted c0.l.level logs).map format ++
        [format (closedMessage caller now)] := by
  have inv0 : SoloInv c0.l.level
      (c0.out ++ (c0.pending ++ accepted c0.l.level logs).map format ++
        [format (closedMessage caller now)]) c0
      (program (logs.map .log ++ [.close caller now])) := by
    refine ⟨rfl, hcode, ?_, noSend_tail (noSend_program _), fun _ => noSend_program _, ?_⟩
    · have hl : lOGSYS ≥ c0.l.level := hlevel
      simp [program_append, willEnqueue_logs, program, Call.code, Close, willEnqueue, hrun,
        closedMessage, newMessage, hl, Config.stream]
    · intro h; exact absurd h (inLoop_not_exit hloop)
  have cinv0 : CloseInv c0 (program (logs.map .log ++ [.close caller now])) :=
    ⟨hcode, Or.inl (program_getLast _ caller now),
      Or.inr (by simp [program_append, program, Call.code, Close])⟩
  obtain ⟨code1, inv1⟩ := soloInv_exec sched inv0 hexec
  obtain ⟨code2, cinv1⟩ := closeInv_exec sched cinv0 hexec
  have h1 : code1 = [] := by
    have := inv1.callers; rw [hret] at this; simpa using this.symm
  have h2 : code2 = [] := by
    have := cinv1.callers; rw [hret] at this; simpa using this.symm
  subst h1; subst h2
  have hdone : c.consumer = .done := by
    rcases cinv1.last with h | ⟨_, h⟩
    · simp at h
    · exact h
  have hd := inv1.drained (Or.inr hdone)
  have hchan : c.l.msgs.closed = true := by
    rcases cinv1.chan with h | h
    · exact h
    · simp at h
  refine ⟨hd.2, hdone, hd.1, hchan, ?_⟩
  have ht := inv1.total
  simpa [willEnqueue, Config.stream, Config.pending, hd.2, hdone, Consumer.hand] using ht

/-! ## The queue is closed only after `closed` is set, in every process -/

theorem closesAfterSet_mono (code : List Instr) (flag : Bool)
    (h : closesAfterSet flag code = true) : closesAfterSet true code = true := by
  induction code generalizing flag with
  | nil => rfl
  | cons a r ih =>
    cases a with
    | closeMsgs =>
      simp only [closesAfterSet, Bool.and_eq_true] at h
      simpa [closesAfterSet] using ih flag h.2
    | setClosed => simpa [closesAfterSet] using h
    | check m => simpa [closesAfterSet] using ih flag (by simpa [closesAfterSet] using h)
    | send m => simpa [closesAfterSet] using ih flag (by simpa [closesAfterSet] using h)
    | recvExit => simpa [closesAfterSet] using ih flag (by simpa [closesAfterSet] using h)

theorem closesAfterSet_program (calls : List Call) (flag : Bool) :
    closesAfterSet flag (program calls) = true := by
  induction calls generalizing flag with
  | nil => rfl
  | cons a r ih => cases a <;> simp [program, Call.code, Close, closesAfterSet, ih]

theorem closesAfterSet_step {c c1 : Config} {t : Tid}
    (hcode : ∀ code ∈ c.callers, closesAfterSet c.l.closed code = true)
    (hq : c.l.msgs.closed = true → c.l.closed = true) (h : step c t = some c1) :
    (∀ code ∈ c1.callers, closesAfterSet c1.l.closed code = true) ∧
      (c1.l.msgs.closed = true → c1.l.closed = true) := by
  unfold step at h
  split at h
  · cases h
  · cases t with
    | consumer =>
      change stepConsumer c = some c1 at h
      have hclosed : c1.l.closed = c.l.closed := by
        cases hcons : c.consumer with
        | cond =>
          simp only [stepConsumer, hcons, Option.some.injEq] at h
          subst h; rfl
        | read =>
          simp only [stepConsumer, hcons, read, Chan.recv] at h
          cases hbuf : c.l.msgs.buf with
          | nil =>
            rw [hbuf] at h
            by_cases hch : c.l.msgs.closed = true
            · simp [hch] at h
              subst h; rfl
            · simp [hch] at h
          | cons m rest =>
            rw [hbuf] at h
            simp at h
            subst h; rfl
        | write msg =>
          cases msg with
          | none =>
            simp only [stepConsumer, hcons, Option.some.injEq] at h
            subst h; rfl
          | some m =>
            simp only [stepConsumer, hcons] at h
            cases hw : c.l.writter with
            | none =>
              rw [hw] at h
              simp at h
              subst h; rfl
            | some w =>
              rw [hw] at h
              simp at h
              subst h; rfl
        | sendExit => simp [stepConsumer, hcons] at h
        | done => simp [stepConsumer, hcons] at h
      obtain ⟨h1, _, h3⟩ := stepConsumer_callers h
      rw [h1, hclosed, h3]
      exact ⟨hcode, hq⟩
    | caller i =>
      change stepCaller c i = some c1 at h
      unfold stepCaller at h
      cases hi : c.callers[i]? with
      | none => simp [hi] at h
      | some code =>
        have hmem : code ∈ c.callers := List.getElem?_mem hi
        have hc := hcode code hmem
        have hset : ∀ (flag : Bool) (new : List Instr),
            (c.l.closed = true → flag = true) → closesAfterSet flag new = true →
            ∀ x ∈ c.callers.set i new, closesAfterSet flag x = true := by
          intro flag new hflag hnew x hx
          rcases List.mem_or_eq_of_mem_set hx with hx | hx
          · cases hfl : flag with
            | true => exact closesAfterSet_mono x _ (hcode x hx)
            | false =>
              have : c.l.closed = false := by
                cases hcl : c.l.closed with
                | false => rfl
                | true => rw [hflag hcl] at hfl; cases hfl
              rw [← this]; exact hcode x hx
          · rw [hx]; exact hnew
        rw [hi] at h
        cases code with
        | nil => simp at h
        | cons ins rest =>
          cases ins with
          | check m =>
            simp only at h
            have hr : closesAfterSet c.l.closed rest = true := by
              simpa [closesAfterSet] using hc
            split at h
            · cases h; exact ⟨hset _ _ id hr, hq⟩
            · split at h
              · cases h
                exact ⟨hset _ _ id (by simpa [closesAfterSet] using hr), hq⟩
              · cases h; exact ⟨hset _ _ id hr, hq⟩
          | send m =>
            simp only [Chan.send] at h
            have hr : closesAfterSet c.l.closed rest = true := by
              simpa [closesAfterSet] using hc
            by_cases h1 : c.l.msgs.closed = true
            · simp [h1] at h
              cases h; exact ⟨hcode, hq⟩
            · by_cases h2 : c.l.msgs.buf.length < c.l.msgs.cap
              · simp [h1, h2] at h
                cases h
                exact ⟨hset _ _ id hr, by simp⟩
              · by_cases hrv : c.l.msgs.cap = 0 ∧ c.l.msgs.len = 0 ∧ c.consumer = .read
                · simp [h1, h2, hrv] at h
                  cases h
                  exact ⟨hset _ _ id hr, hq⟩
                · simp [h1, h2, hrv] at h
          | setClosed =>
            simp only [Option.some.injEq] at h
            cases h
            exact ⟨hset true _ (fun _ => rfl) (by simpa [closesAfterSet] using hc),
              fun _ => rfl⟩
          | closeMsgs =>
            simp only [Chan.close] at h
            have hr : c.l.closed = true ∧ closesAfterSet c.l.closed rest = true := by
              simpa [closesAfterSet] using hc
            by_cases h1 : c.l.msgs.closed = true
            · simp [h1] at h
              cases h; exact ⟨hcode, hq⟩
            · simp [h1] at h
              cases h
              exact ⟨hset _ _ id hr.2, fun _ => hr.1⟩
          | recvExit =>
            simp only at h
            have hr : closesAfterSet c.l.closed rest = true := by
              simpa [closesAfterSet] using hc
            split at h
            · cases h
            · split at h
              · cases h; exact ⟨hset _ _ id hr, hq⟩
              · cases h

theorem write_keeps_flags {l l1 : Logger} {m : message} (h : write l m = .ok l1) :
    l1.msgs.closed = l.msgs.closed := by
  by_cases hc : l.closed = true
  · simp [write, hc] at h
    subst h; rfl
  · by_cases hl : l.level ≤ m.Level
    · by_cases hch : l.msgs.closed = true
      · simp [write, hc, hl, Chan.send, hch] at h
      · by_cases hroom : l.msgs.buf.length < l.msgs.cap
        · simp [write, hc, hl, Chan.send, hch, hroom] at h
          subst h
          simpa using hch
        · simp [write, hc, hl, Chan.send, hch, hroom] at h
    · simp [write, hc, hl] at h
      subst h; rfl

/-- In every process that `NewLogger` starts, whatever its caller threads
call and however they are scheduled, the queue is closed only once `closed`
is set. -/
theorem queue_closed_only_after_flag (level : LogLevel) (size : Nat) (w : Option Writter)
    (now : Time) (caller : Caller) (now1 : Time) (threads : List (List Call))
    (c0 : Config) (sched : List Tid) (c : Config)
    (hnew : NewLogger level size w now caller now1 threads = .ok c0)
    (hexec : exec c0 sched = some c) : c.l.msgs.closed = true → c.l.closed = true := by
  have key : ∀ (sched : List Tid) (c0 c : Config),
      (∀ code ∈ c0.callers, closesAfterSet c0.l.closed code = true) →
      (c0.l.msgs.closed = true → c0.l.closed = true) → exec c0 sched = some c →
      (c.l.msgs.closed = true → c.l.closed = true) := by
    intro sched
    induction sched with
    | nil =>
      intro c0 c _ hq h
      simp only [exec, Option.some.injEq] at h
      subst h; exact hq
    | cons t ts ih =>
      intro c0 c hcode hq h
      simp only [exec] at h
      cases hs : step c0 t with
      | none => rw [hs] at h; cases h
      | some c2 =>
        rw [hs] at h
        obtain ⟨h1, h2⟩ := closesAfterSet_step hcode hq hs
        exact ih c2 c h1 h2 h
  have hinit : (∀ code ∈ c0.callers, closesAfterSet c0.l.closed code = true) ∧
      (c0.l.msgs.closed = true → c0.l.closed = true) := by
    unfold NewLogger run at hnew
    cases hlog : Log (NewLogger.l level size w now) lOGSYS "Logger started" caller now1 with
    | blocked => rw [hlog] at hnew; cases hnew
    | panic why => rw [hlog] at hnew; cases hnew
    | ok l1 =>
      rw [hlog] at hnew
      simp only [Outcome.ok.injEq] at hnew
      subst hnew
      have hl1 : l1.msgs.closed = false := by
        rw [write_keeps_flags (m := newMessage lOGSYS "Logger started" caller now1) hlog]
        cases w <;> rfl
      refine ⟨?_, fun h => by rw [hl1] at h; cases h⟩
      intro code hcode
      simp only [List.mem_map] at hcode
      obtain ⟨calls, _, rfl⟩ := hcode
      exact closesAfterSet_program calls _
  exact key sched c0 c hinit.1 hinit.2 hexec


/-- The sequential `write` is what the machine does when a thread runs the
statements of `write` without another thread stepping in between. -/
theorem write_refines_steps (c : Config) (i : Nat) (m : message) (rest : List Instr)
    (l1 : Logger) (halive : c.panicked = none)
    (hcode : c.callers[i]? = some (.check m :: rest)) (hw : write c.l m = .ok l1) :
    exec c [.caller i] = some { c with l := l1, callers := c.callers.set i rest } ∨
      exec c [.caller i, .caller i] = some { c with l := l1, callers := c.callers.set i rest } := by
  have hi : i < c.callers.length := by
    rcases Nat.lt_or_ge i c.callers.length with h | h
    · exact h
    · rw [List.getElem?_eq_none (by omega)] at hcode; cases hcode
  by_cases hc : c.l.closed = true
  · left
    simp [write, hc] at hw
    subst hw
    simp [exec, step, halive, stepCaller, hcode, hc]
  · by_cases hl : c.l.level ≤ m.Level
    · right
      by_cases hch : c.l.msgs.closed = true
      · simp [write, hc, hl, Chan.send, hch] at hw
      · by_cases hroom : c.l.msgs.buf.length < c.l.msgs.cap
        · simp [write, hc, hl, Chan.send, hch, hroom] at hw
          subst hw
          have h1 : step c (.caller i) =
              some { c with callers := c.callers.set i (.send m :: rest) } := by
            simp [step, halive, stepCaller, hcode, hc, hl]
          have h2 : step { c with callers := c.callers.set i (.send m :: rest) } (.caller i) =
              some { c with
                l := { c.l with msgs := { c.l.msgs with buf := c.l.msgs.buf ++ [m] } }
                callers := c.callers.set i rest } := by
            simp [step, halive, stepCaller, List.getElem?_set_self hi, Chan.send, hch, hroom]
          simp only [exec, h1, h2]
          simp [hch]
          simpa using hc
        · simp [write, hc, hl, Chan.send, hch, hroom] at hw
    · left
      simp [write, hc, hl] at hw
      subst hw
      simp [exec, step, halive, stepCaller, hcode, hc, hl]

/-! ## The timestamp, digit by digit -/

theorem toDigitsCore_fuel (m : Nat) : ∀ (fuel : Nat) (ds : List Char), m < fuel →
    Nat.toDigitsCore 10 fuel m ds = Nat.toDigits 10 m ++ ds := by
  induction m using Nat.strong_induction_on with
  | _ m ih =>
    intro fuel ds hm
    cases fuel with
    | zero => omega
    | succ f =>
      by_cases h0 : m / 10 = 0
      · simp [Nat.toDigits, Nat.toDigitsCore, h0]
      · have hlt : m / 10 < m := by omega
        have h1 := ih (m / 10) hlt f (Nat.digitChar (m % 10) :: ds) (by omega)
        have h2 := ih (m / 10) hlt m [Nat.digitChar (m % 10)] hlt
        simp only [Nat.toDigits, Nat.toDigitsCore, h0, if_false] at h1 h2 ⊢
        rw [h1, h2]
        simp

theorem toDigits_small (n : Nat) (h : n < 10) : Nat.toDigits 10 n = [Nat.digitChar n] := by
  have h0 : n / 10 = 0 := by omega
  have h1 : n % 10 = n := by omega
  simp [Nat.toDigits, Nat.toDigitsCore, h0, h1]

theorem toDigits_step (n : Nat) (h : 10 ≤ n) :
    Nat.toDigits 10 n = Nat.toDigits 10 (n / 10) ++ [Nat.digitChar (n % 10)] := by
  have h0 : ¬ n / 10 = 0 := by omega
  have hlt : n / 10 < n := by omega
  have := toDigitsCore_fuel (n / 10) n [Nat.digitChar (n % 10)] hlt
  simp only [Nat.toDigits, Nat.toDigitsCore, h0, if_false] at this ⊢
  exact this

theorem toString_nat (n : Nat) : toString n = String.mk (Nat.toDigits 10 n) := rfl

theorem padZero_digits (w n : Nat) (ds : List Char) (h : Nat.toDigits 10 n = ds) :
    padZero w n = String.mk (List.replicate (w - ds.length) '0' ++ ds) := by
  subst h
  rfl

theorem padZero_two (n : Nat) (h : n < 100) :
    padZero 2 n = String.mk [Nat.digitChar (n / 10 % 10), Nat.digitChar (n % 10)] := by
  by_cases h1 : n < 10
  · have h0 : n / 10 = 0 := by omega
    rw [padZero_digits 2 n _ (toDigits_small n h1), h0]
    have h2 : n % 10 = n := by omega
    rw [h2]
    rfl
  · have hs := toDigits_step n (by omega)
    have h3 : n / 10 % 10 = n / 10 := by omega
    rw [toDigits_small (n / 10) (by omega)] at hs
    rw [padZero_digits 2 n _ hs, h3]
    rfl

theorem padZero_four (n : Nat) (h : n < 10000) :
    padZero 4 n = String.mk [Nat.digitChar (n / 1000 % 10), Nat.digitChar (n / 100 % 10),
      Nat.digitChar (n / 10 % 10), Nat.digitChar (n % 10)] := by
  have d2 : n / 10 / 10 = n / 100 := by omega
  have d3 : n / 100 / 10 = n / 1000 := by omega
  by_cases h1 : n < 10
  · have e1 : n / 1000 = 0 := by omega
    have e2 : n / 100 = 0 := by omega
    have e3 : n / 10 = 0 := by omega
    have e4 : n % 10 = n := by omega
    rw [padZero_digits 4 n _ (toDigits_small n h1), e1, e2, e3, e4]
    rfl
  · have s1 := toDigits_step n (by omega)
    by_cases h2 : n < 100
    · have e1 : n / 1000 = 0 := by omega
      have e2 : n / 100 = 0 := by omega
      have e3 : n / 10 % 10 = n / 10 := by omega
      rw [toDigits_small (n / 10) (by omega)] at s1
      rw [padZero_digits 4 n _ s1, e1, e2, e3]
      rfl
    · have s2 := toDigits_step (n / 10) (by omega)
      rw [d2] at s2
      by_cases h3 : n < 1000
      · have e1 : n / 1000 = 0 := by omega
        have e2 : n / 100 % 10 = n / 100 := by omega
        rw [toDigits_small (n / 100) (by omega)] at s2
        rw [s2] at s1
        rw [padZero_digits 4 n _ s1, e1, e2]
        rfl
      · have s3 := toDigits_step (n / 100) (by omega)
        rw [d3] at s3
        have e1 : n / 1000 % 10 = n / 1000 := by omega
        rw [toDigits_small (n / 1000) (by omega)] at s3
        rw [s3] at s2
        rw [s2] at s1
        rw [padZero_digits 4 n _ s1, e1]
        rfl

theorem Format_digits (t : Time) (hy : t.year < 10000) (hmo : t.month < 100)
    (hd : t.day < 100) (hh : t.hour < 100) (hmi : t.minute < 100) (hs : t.second < 100) :
    t.Format = String.mk
      [Nat.digitChar (t.year / 1000 % 10), Nat.digitChar (t.year / 100 % 10),
       Nat.digitChar (t.year / 10 % 10), Nat.digitChar (t.year % 10), '-',
       Nat.digitChar (t.month / 10 % 10), Nat.digitChar (t.month % 10), '-',
       Nat.digitChar (t.day / 10 % 10), Nat.digitChar (t.day % 10), ' ',
       Nat.digitChar (t.hour / 10 % 10), Nat.digitChar (t.hour % 10), ':',
       Nat.digitChar (t.minute / 10 % 10), Nat.digitChar (t.minute % 10), ':',
       Nat.digitChar (t.second / 10 % 10), Nat.digitChar (t.second % 10)] := by
  simp only [Time.Format, padZero_four _ hy, padZero_two _ hmo, padZero_two _ hd,
    padZero_two _ hh, padZero_two _ hmi, padZero_two _ hs]
  apply String.ext
  simp [String.data_append]

/-! ## Every accepted message can be delivered -/

theorem exec_append {c c1 c2 : Config} {s1 s2 : List Tid} (h1 : exec c s1 = some c1)
    (h2 : exec c1 s2 = some c2) : exec c (s1 ++ s2) = some c2 := by
  induction s1 generalizing c with
  | nil =>
    simp only [exec, Option.some.injEq] at h1
    subst h1
    simpa using h2
  | cons t ts ih =>
    simp only [exec, List.cons_append] at h1 ⊢
    cases hs : step c t with
    | none => rw [hs] at h1; cases h1
    | some c3 =>
      rw [hs] at h1
      simp only
      exact ih h1

/-- The consumer, waiting in `read`, writes the whole queue. -/
theorem drain_from_read (lvl : LogLevel) (cap size : Nat) (exit : Option (Chan Bool))
    (time : Time) (callers : List (List Instr)) :
    ∀ (buf : List message) (w : Writter), ∃ sched,
      exec (runningConfig lvl cap size exit time buf w .read callers) sched =
        some (runningConfig lvl cap size exit time []
          { w with written := w.written ++ buf.map format } .read callers) := by
  intro buf
  induction buf with
  | nil =>
    intro w
    exact ⟨[], by simp [exec]⟩
  | cons m rest ih =>
    intro w
    obtain ⟨sched, h⟩ := ih (w.Write (format m))
    refine ⟨[.consumer, .consumer, .consumer] ++ sched, ?_⟩
    have h1 : exec (runningConfig lvl cap size exit time (m :: rest) w .read callers)
        [.consumer, .consumer, .consumer] =
        some (runningConfig lvl cap size exit time rest (w.Write (format m)) .read callers) := by
      simp [exec, step, stepConsumer, runningConfig, read, Chan.recv]
    have h2 := exec_append h1 h
    rw [h2]
    simp [Writter.Write, List.append_assoc]

/-- The consumer, anywhere in its loop, writes the message it holds and the
whole queue, and then waits in `read`. -/
theorem drain_in_loop (lvl : LogLevel) (cap size : Nat) (exit : Option (Chan Bool))
    (time : Time) (callers : List (List Instr)) (buf : List message) (w : Writter)
    (k : Consumer) (hk : k.inLoop = true) : ∃ sched,
      exec (runningConfig lvl cap size exit time buf w k callers) sched =
        some (runningConfig lvl cap size exit time []
          { w with written := w.written ++ (k.hand ++ buf).map format } .read callers) := by
  cases k with
  | cond =>
    obtain ⟨sched, h⟩ := drain_from_read lvl cap size exit time callers buf w
    refine ⟨[.consumer] ++ sched, ?_⟩
    have h1 : exec (runningConfig lvl cap size exit time buf w .cond callers) [.consumer] =
        some (runningConfig lvl cap size exit time buf w .read callers) := by
      simp [exec, step, stepConsumer, runningConfig]
    rw [exec_append h1 h]
    simp [Consumer.hand]
  | read =>
    obtain ⟨sched, h⟩ := drain_from_read lvl cap size exit time callers buf w
    exact ⟨sched, by rw [h]; simp [Consumer.hand]⟩
  | write msg =>
    cases msg with
    | none => simp [Consumer.inLoop] at hk
    | some m =>
      obtain ⟨sched, h⟩ := drain_from_read lvl cap size exit time callers buf
        (w.Write (format m))
      refine ⟨[.consumer, .consumer] ++ sched, ?_⟩
      have h1 : exec (runningConfig lvl cap size exit time buf w (.write (some m)) callers)
          [.consumer, .consumer] =
          some (runningConfig lvl cap size exit time buf (w.Write (format m)) .read callers) := by
        simp [exec, step, stepConsumer, runningConfig]
      rw [exec_append h1 h]
      simp [Consumer.hand, Writter.Write, List.append_assoc]
  | sendExit => simp [Consumer.inLoop] at hk
  | done => simp [Consumer.inLoop] at hk

/-- With an empty queue of capacity at least 1 and the consumer waiting, the
thread can complete its remaining calls, and every one that passes the
threshold gets written, in order. -/
theorem finish_calls (lvl : LogLevel) (cap size : Nat) (exit : Option (Chan Bool))
    (time : Time) (hcap : 0 < cap) :
    ∀ (todo : List message) (w : Writter), ∃ sched,
      exec (runningConfig lvl cap size exit time [] w .read [program (todo.map .log)]) sched =
        some (runningConfig lvl cap size exit time []
          { w with written := w.written ++ (accepted lvl todo).map format } .read [[]]) := by
  intro todo
  induction todo with
  | nil =>
    intro w
    exact ⟨[], by simp [exec, program, accepted]⟩
  | cons m rest ih =>
    intro w
    by_cases hlev : lvl ≤ m.Level
    · obtain ⟨sched, h⟩ := ih (w.Write (format m))
      refine ⟨[.caller 0, .caller 0, .consumer, .consumer, .consumer] ++ sched, ?_⟩
      have h1 : exec (runningConfig lvl cap size exit time [] w .read
            [program ((m :: rest).map .log)])
          [.caller 0, .caller 0, .consumer, .consumer, .consumer] =
          some (runningConfig lvl cap size exit time [] (w.Write (format m)) .read
            [program (rest.map .log)]) := by
        simp [exec, step, stepCaller, stepConsumer, runningConfig, program, Call.code, hlev,
          Chan.send, hcap, read, Chan.recv]
      rw [exec_append h1 h]
      simp [Writter.Write, accepted, List.filter_cons, hlev, List.append_assoc]
    · obtain ⟨sched, h⟩ := ih w
      refine ⟨[.caller 0] ++ sched, ?_⟩
      have h1 : exec (runningConfig lvl cap size exit time [] w .read
            [program ((m :: rest).map .log)]) [.caller 0] =
          some (runningConfig lvl cap size exit time [] w .read [program (rest.map .log)]) := by
        simp [exec, step, stepCaller, runningConfig, program, Call.code, hlev]
      rw [exec_append h1 h]
      simp [accepted, List.filter_cons, hlev]

theorem step_cap {c c1 : Config} {t : Tid} (h : step c t = some c1) :
    c1.l.msgs.cap = c.l.msgs.cap := by
  unfold step at h
  split at h
  · cases h
  · cases t with
    | consumer =>
      change stepConsumer c = some c1 at h
      cases hcons : c.consumer with
      | cond =>
        simp only [stepConsumer, hcons, Option.some.injEq] at h
        subst h; rfl
      | read =>
        simp only [stepConsumer, hcons, read, Chan.recv] at h
        cases hbuf : c.l.msgs.buf with
        | nil =>
          rw [hbuf] at h
          by_cases hch : c.l.msgs.closed = true
          · simp [hch] at h
            subst h; rfl
          · simp [hch] at h
        | cons m rest =>
          rw [hbuf] at h
          simp at h
          subst h; rfl
      | write msg =>
        cases msg with
        | none =>
          simp only [stepConsumer, hcons, Option.some.injEq] at h
          subst h; rfl
        | some m =>
          simp only [stepConsumer, hcons] at h
          cases hw : c.l.writter with
          | none =>
            rw [hw] at h
            simp at h
            subst h; rfl
          | some w =>
            rw [hw] at h
            simp at h
            subst h; rfl
      | sendExit => simp [stepConsumer, hcons] at h
      | done => simp [stepConsumer, hcons] at h
    | caller i =>
      change stepCaller c i = some c1 at h
      unfold stepCaller at h
      cases hi : c.callers[i]? with
      | none => simp [hi] at h
      | some code =>
        rw [hi] at h
        cases code with
        | nil => simp at h
        | cons ins rest =>
          cases ins with
          | check m =>
            simp only at h
            split at h
            · cases h; rfl
            · split at h <;> (cases h; rfl)
          | send m =>
            simp only [Chan.send] at h
            by_cases h1 : c.l.msgs.closed = true
            · simp [h1] at h
              cases h; rfl
            · by_cases h2 : c.l.msgs.buf.length < c.l.msgs.cap
              · simp [h1, h2] at h
                cases h; rfl
              · by_cases hrv : c.l.msgs.cap = 0 ∧ c.l.msgs.len = 0 ∧ c.consumer = .read
                · simp [h1, h2, hrv] at h
                  cases h; rfl
                · simp [h1, h2, hrv] at h
          | setClosed =>
            simp only [Option.some.injEq] at h
            cases h; rfl
          | closeMsgs =>
            simp only [Chan.close] at h
            by_cases h1 : c.l.msgs.closed = true
            · simp [h1] at h
              cases h; rfl
            · simp [h1] at h
              cases h; rfl
          | recvExit =>
            simp only at h
            split at h
            · cases h
            · split at h
              · cases h; rfl
              · cases h

theorem exec_cap (sched : List Tid) : ∀ {c c1 : Config}, exec c sched = some c1 →
    c1.l.msgs.cap = c.l.msgs.cap := by
  induction sched with
  | nil =>
    intro c c1 h
    simp only [exec, Option.some.injEq] at h
    subst h; rfl
  | cons t ts ih =>
    intro c c1 h
    simp only [exec] at h
    cases hs : step c t with
    | none => rw [hs] at h; cases h
    | some c2 =>
      rw [hs] at h
      rw [ih h, step_cap hs]

theorem program_logs_eq_nil {todo : List message} (h : program (todo.map .log) = []) :
    todo = [] := by
  cases todo with
  | nil => rfl
  | cons m rest => simp [program, Call.code] at h

/-- From a state in which the thread only logs, with room for at least one
message in the queue, some schedule completes the calls and writes every
pending message and every remaining accepted one, in order. -/
theorem logInv_complete {lvl : LogLevel} {logs done todo : List message} {c : Config}
    (inv : LogInv lvl logs c done todo) (hcap : 0 < c.l.msgs.cap) :
    ∃ sched c1, exec c sched = some c1 ∧ c1.callers = [[]] ∧ c1.pending = [] ∧
      c1.out = c.out ++ (c.pending ++ accepted lvl todo).map format := by
  obtain ⟨hs, hcode, hl, hr, hch, hw, hloop, ha⟩ := inv
  obtain ⟨⟨lv, ⟨buf, cap, chc⟩, size, cl, exit, time, wr⟩, k, callers, pan⟩ := c
  simp only at hl hr hch hw hloop ha hcap hcode
  subst hl hr hch ha
  cases wr with
  | none => exact absurd rfl hw
  | some w =>
    obtain ⟨s1, h1⟩ := drain_in_loop lv cap size exit time callers buf w k hloop
    rcases hcode with hc | ⟨m, rest, htodo, hlev, hc⟩
    · subst hc
      obtain ⟨s2, h2⟩ := finish_calls lv cap size exit time hcap todo
        { w with written := w.written ++ (k.hand ++ buf).map format }
      refine ⟨s1 ++ s2, _, exec_append h1 h2, rfl, ?_, ?_⟩
      · simp [Config.pending, runningConfig, Consumer.hand]
      · simp [Config.out, Config.pending, runningConfig, List.append_assoc]
    · subst hc
      obtain ⟨s2, h2⟩ := finish_calls lv cap size exit time hcap rest
        ({ w with written := w.written ++ (k.hand ++ buf).map format }.Write (format m))
      have hmid : exec (runningConfig lv cap size exit time []
            { w with written := w.written ++ (k.hand ++ buf).map format } .read
            [.send m :: program (rest.map .log)])
          [.caller 0, .consumer, .consumer, .consumer] =
          some (runningConfig lv cap size exit time []
            ({ w with written := w.written ++ (k.hand ++ buf).map format }.Write (format m))
            .read [program (rest.map .log)]) := by
        simp [exec, step, stepCaller, stepConsumer, runningConfig, Chan.send, hcap, read,
          Chan.recv]
      refine ⟨s1 ++ ([.caller 0, .consumer, .consumer, .consumer] ++ s2), _,
        exec_append h1 (exec_append hmid h2), rfl, ?_, ?_⟩
      · simp [Config.pending, runningConfig, Consumer.hand]
      · simp [Config.out, Config.pending, runningConfig, List.append_assoc, Writter.Write,
          htodo, accepted, List.filter_cons, hlev]

/-! ## The claims -/

/-- Claim C1.  On a Logger whose queue is closed only once `closed` is set
(every Logger of a running process is such, `queue_closed_only_after_flag`),
`write` appends `m` to the tail of the queue exactly when `closed` is false
and `m.Level >= l.level` (it returns at once when the queue has room and
blocks, changing nothing, while the queue is full); when `closed` is true or
`m.Level < l.level` it returns the Logger unchanged: queue, sink, threshold
and `closed` flag. -/
theorem write_appends_iff_accepted (l : Logger) (m : message)
    (hopen : l.msgs.closed = true → l.closed = true) :
    (l.closed = false ∧ m.Level ≥ l.level →
      (l.msgs.buf.length < l.msgs.cap →
        write l m = .ok { l with msgs := { l.msgs with buf := l.msgs.buf ++ [m] } }) ∧
      (l.msgs.cap ≤ l.msgs.buf.length → write l m = .blocked)) ∧
    (l.closed = true ∨ m.Level < l.level → write l m = .ok l) ∧
    (∀ l1, write l m = .ok l1 →
      (l1.msgs.buf = l.msgs.buf ++ [m] ↔ (l.closed = false ∧ m.Level ≥ l.level))) := by
  refine ⟨?_, ?_, ?_⟩
  · rintro ⟨hc, hl⟩
    have hch : l.msgs.closed = false := by
      cases h : l.msgs.closed
      · rfl
      · rw [hopen h] at hc; cases hc
    constructor
    · intro hroom
      simp [write, hc, hl, Chan.send, hch, hroom]
    · intro hfull
      have : ¬ l.msgs.buf.length < l.msgs.cap := Nat.not_lt.mpr hfull
      simp [write, hc, hl, Chan.send, hch, this]
  · rintro (hc | hl)
    · simp [write, hc]
    · have : ¬ l.level ≤ m.Level := not_le.mpr hl
      by_cases hc : l.closed = true <;> simp [write, hc, this]
  · intro l1 h
    by_cases hc : l.closed = true
    · simp [write, hc] at h
      subst h
      simp [hc]
    · by_cases hl : l.level ≤ m.Level
      · by_cases hch : l.msgs.closed = true
        · simp [write, hc, hl, Chan.send, hch] at h
        · by_cases hroom : l.msgs.buf.length < l.msgs.cap
          · simp [write, hc, hl, Chan.send, hch, hroom] at h
            subst h
            simpa [hl] using hc
          · simp [write, hc, hl, Chan.send, hch, hroom] at h
      · simp [write, hc, hl] at h
        subst h
        simp [hl]

/-- A use of `write_appends_iff_accepted` on the Logger returned by
`NewLogger(INFO, 10, recorder)` and an INFO message. -/
theorem write_appends_iff_accepted_witness :
    (freshLogger.msgs.closed = true → freshLogger.closed = true) ∧
      write freshLogger (newMessage INFO "y" userSite sampleTime) =
        .ok { freshLogger with
          msgs := { freshLogger.msgs with
            buf := freshLogger.msgs.buf ++ [newMessage INFO "y" userSite sampleTime] } } ∧
      write freshLogger (newMessage DEBUG "x" userSite sampleTime) = .ok freshLogger :=
  ⟨by decide,
   ((write_appends_iff_accepted freshLogger (newMessage INFO "y" userSite sampleTime)
      (by decide)).1 (by decide)).1 (by decide),
   (write_appends_iff_accepted freshLogger (newMessage DEBUG "x" userSite sampleTime)
      (by decide)).2.1 (by decide)⟩

/-- Claim C2.  One thread makes the logging calls `logs` on a running Logger
(not closed, queue open, a sink present, consumer inside its loop) with a
fixed threshold.  In every state any schedule reaches, no goroutine has
panicked, the threshold is unchanged, and `logs` splits into the calls `done`
the thread has settled and the calls `todo` it still has to run: its
remaining code is exactly that of `todo`, the first of them possibly waiting
in `send` after passing the threshold.  The lines written followed by the
lines of the pending messages (the message the consumer holds between its
dequeue and its write, then the queue) are the lines present at the start
followed by the lines of the calls of `done` with level at least the
threshold, in order; so the sink output is an initial segment of the accepted
sequence and nothing below the threshold is written.  A thread waiting in
`send` on a full queue of capacity at least 1 cannot step: it blocks, it does
not drop.  Once the
thread has returned from all its calls, every accepted message is written or
pending; and when the capacity is at least 1, from every reachable state some
schedule runs the calls to completion with every accepted message written
once, in order. -/
theorem sink_writes_in_fifo_order (c0 : Config) (logs : List message) (sched : List Tid)
    (c : Config)
    (hcode : c0.callers = [program (logs.map .log)])
    (halive : c0.panicked = none) (hrun : c0.l.closed = false)
    (hchan : c0.l.msgs.closed = false) (hsink : c0.l.writter ≠ none)
    (hloop : c0.consumer.inLoop = true) (hexec : exec c0 sched = some c) :
    c.panicked = none ∧ c.l.level = c0.l.level ∧
      ∃ done todo, logs = done ++ todo ∧
        (c.callers = [program (todo.map .log)] ∨
          ∃ m rest, todo = m :: rest ∧ c0.l.level ≤ m.Level ∧
            c.callers = [.send m :: program (rest.map .log)]) ∧
        c.out ++ c.pending.map format =
          c0.out ++ (c0.pending ++ accepted c0.l.level done).map format ∧
        (c.consumer.hand = [] → c.out ++ c.l.msgs.buf.map format =
          c0.out ++ (c0.pending ++ accepted c0.l.level done).map format) ∧
        (∃ rest,
          c.out ++ rest = c0.out ++ (c0.pending ++ accepted c0.l.level logs).map format) ∧
        (∀ m rest, c.callers = [.send m :: rest] → 0 < c.l.msgs.cap →
          c.l.msgs.cap ≤ c.l.msgs.buf.length → step c (.caller 0) = none) ∧
        (c.callers = [[]] → c.out ++ c.pending.map format =
          c0.out ++ (c0.pending ++ accepted c0.l.level logs).map format) ∧
        (0 < c0.l.msgs.cap → ∃ sched1 c1, exec c sched1 = some c1 ∧ c1.callers = [[]] ∧
          c1.pending = [] ∧
          c1.out = c0.out ++ (c0.pending ++ accepted c0.l.level logs).map format) := by
  have linv0 : LogInv c0.l.level logs c0 [] logs :=
    ⟨rfl, Or.inl hcode, rfl, hrun, hchan, hsink, hloop, halive⟩
  have sinv0 : SoloInv c0.l.level (c0.stream ++ (accepted c0.l.level logs).map format) c0
      (program (logs.map .log)) := by
    refine ⟨rfl, hcode, ?_, noSend_tail (noSend_program _), fun _ => noSend_program _, ?_⟩
    · have := willEnqueue_logs c0.l.level logs []
      simp only [List.append_nil, willEnqueue] at this
      rw [hrun, this]
    · intro h; exact absurd h (inLoop_not_exit hloop)
  obtain ⟨done, todo, linv⟩ := logInv_exec sched linv0 hexec
  obtain ⟨code1, sinv⟩ := soloInv_exec sched sinv0 hexec
  have hw : willEnqueue c0.l.level false code1 = accepted c0.l.level todo := by
    rcases linv.code with h | ⟨m, rest, htodo, hlev, h⟩
    · have h1 : code1 = program (todo.map .log) := by
        have := sinv.callers; rw [h] at this; simpa using this.symm
      have := willEnqueue_logs c0.l.level todo []
      simp only [List.append_nil, willEnqueue] at this
      rw [h1, this]
    · have h1 : code1 = .send m :: program (rest.map .log) := by
        have := sinv.callers; rw [h] at this; simpa using this.symm
      have := willEnqueue_logs c0.l.level rest []
      simp only [List.append_nil, willEnqueue] at this
      rw [h1, htodo]
      simp [willEnqueue, this, accepted, List.filter_cons, hlev]
  have ht := sinv.total
  rw [linv.running, hw, linv.split, accepted_append, List.map_append, ← List.append_assoc] at ht
  have hs : c.stream = c0.stream ++ (accepted c0.l.level done).map format :=
    List.append_cancel_right ht
  have hs1 : c.out ++ c.pending.map format =
      c0.out ++ (c0.pending ++ accepted c0.l.level done).map format := by
    simpa [Config.stream, List.append_assoc] using hs
  refine ⟨linv.alive, linv.level, done, todo, linv.split, linv.code, hs1, ?_, ?_, ?_, ?_, ?_⟩
  · intro hh
    simpa [Config.pending, hh] using hs1
  · refine ⟨c.pending.map format ++ (accepted c0.l.level todo).map format, ?_⟩
    rw [← List.append_assoc, hs1, linv.split, accepted_append]
    simp [List.append_assoc]
  · intro m rest hc hpos hfull
    have hnot : ¬ c.l.msgs.buf.length < c.l.msgs.cap := Nat.not_lt.mpr hfull
    have hne : ¬ c.l.msgs.cap = 0 := by omega
    simp [step, linv.alive, stepCaller, hc, Chan.send, linv.chan, hnot, hne]
  · intro hret
    rcases linv.code with h | ⟨m, rest, _, _, h⟩
    · have h0 : program (todo.map .log) = [] := by
        rw [hret] at h; simpa using h.symm
      have htodo := program_logs_eq_nil h0
      have hd : done = logs := by rw [linv.split, htodo, List.append_nil]
      rw [hd] at hs1
      exact hs1
    · rw [hret] at h; simp at h
  · intro hcap
    have hcap1 : 0 < c.l.msgs.cap := by rw [exec_cap sched hexec]; exact hcap
    obtain ⟨s1, c1, h1, h2, h3, h4⟩ := logInv_complete linv hcap1
    refine ⟨s1, c1, h1, h2, h3, ?_⟩
    rw [h4, List.map_append, ← List.append_assoc, hs1, linv.split, accepted_append]
    simp [List.append_assoc]

/-- A use of `sink_writes_in_fifo_order` on a queue of capacity 1: the
producer makes two ERROR calls and has to wait for the consumer; in the state
reached the first line is written and the second message is queued, and the
run can be completed with both lines written. -/
theorem sink_writes_in_fifo_order_witness :
    (exec narrowStart narrowSchedule).map (fun c => (c.out, c.l.msgs.buf, c.callers)) =
        some ([format (newMessage ERROR "a" userSite sampleTime)],
          [newMessage ERROR "b" userSite sampleTime], [[]]) ∧
      (exec narrowStart (narrowSchedule.take 3)).map (fun c => step c (.caller 0)) =
        some none ∧
      ∀ c, exec narrowStart narrowSchedule = some c →
        ∃ sched1 c1, exec c sched1 = some c1 ∧ c1.callers = [[]] ∧ c1.pending = [] ∧
          c1.out = narrowStart.out ++
            (narrowStart.pending ++ accepted narrowStart.l.level twoErrors).map format :=
  ⟨by decide, by decide, fun c h =>
    match sink_writes_in_fifo_order narrowStart twoErrors narrowSchedule c rfl rfl rfl rfl
      (by decide) rfl h with
    | ⟨_, _, _, _, _, _, _, _, _, _, _, hfin⟩ => hfin (by decide)⟩

/-- Claim C3, as stated, fails when another thread logs while `Close` runs.
With thread 1 past the `closed` test before thread 0 calls `Close`: in one
schedule `Close` returns and the last line written is the late message, not
"Logger closed"; in another `Close` returns while the late message sits in
the queue, never written. -/
theorem Close_overtaken_by_racing_producer :
    NewLogger INFO 10 (some recorder) sampleTime runSite sampleTime
        [[.close closeSite sampleTime], [.log (newMessage ERROR "late" userSite sampleTime)]] =
      .ok raceStart ∧
    (exec raceStart lateSchedule).map Config.callers = some [[], []] ∧
    (exec raceStart lateSchedule).map Config.out = some
      [format startedMessage, format (closedMessage closeSite sampleTime),
       format (newMessage ERROR "late" userSite sampleTime)] ∧
    format (newMessage ERROR "late" userSite sampleTime) ≠
      format (closedMessage closeSite sampleTime) ∧
    (exec raceStart lostSchedule).map Config.callers = some [[], []] ∧
    (exec raceStart lostSchedule).map (fun c => c.l.msgs.buf) =
      some [newMessage ERROR "late" userSite sampleTime] ∧
    (exec raceStart lostSchedule).map Config.out = some
      [format startedMessage, format (closedMessage closeSite sampleTime)] := by
  decide

/-- Claim C3, amended.  A single thread makes the logging calls `logs` and
then calls `Close` on a running Logger whose threshold is DEBUG, INFO, WARN or
ERROR.  In every state in which `Close` has returned, the consumer has
returned, the queue is empty and closed, and the sink holds the lines present
at the start, then the lines of the messages pending at the start and of the
calls with level at least the threshold, in order, and last the line of the
SYSTEM message "Logger closed". -/
theorem Close_is_drain_barrier_single_caller (c0 : Config) (logs : List message)
    (caller : Caller) (now : Time) (sched : List Tid) (c : Config)
    (hcode : c0.callers = [program (logs.map .log ++ [.close caller now])])
    (hrun : c0.l.closed = false) (hloop : c0.consumer.inLoop = true)
    (hlevel : c0.l.level = DEBUG ∨ c0.l.level = INFO ∨ c0.l.level = WARN ∨ c0.l.level = ERROR)
    (hexec : exec c0 sched = some c) (hret : c.callers = [[]]) :
    c.consumer = .done ∧ c.l.msgs.buf = [] ∧ c.l.msgs.closed = true ∧
      c.out = c0.out ++ (c0.pending ++ accepted c0.l.level logs).map format ++
        [format (closedMessage caller now)] ∧
      c.out.getLast? = some (format (closedMessage caller now)) ∧
      (closedMessage caller now).Level = lOGSYS ∧
      (closedMessage caller now).Message = "Logger closed" := by
  have hl : c0.l.level ≤ lOGSYS := by
    rcases hlevel with h | h | h | h <;> rw [h] <;> decide
  obtain ⟨h1, h2, _, h4, h5⟩ := solo_close_drains c0 logs caller now sched c hcode hrun hloop hl
    hexec hret
  refine ⟨h2, h1, h4, h5, ?_, rfl, rfl⟩
  rw [h5]
  simp

/-- A use of `Close_is_drain_barrier_single_caller` on scenario A. -/
theorem Close_is_drain_barrier_single_caller_witness :
    exec scenarioAStart scenarioASchedule ≠ none ∧
      ∀ c, exec scenarioAStart scenarioASchedule = some c → c.callers = [[]] ∧
        c.consumer = .done ∧ c.l.msgs.buf = [] ∧ c.l.msgs.closed = true ∧
        c.out = scenarioAStart.out ++ (scenarioAStart.pending ++ accepted scenarioAStart.l.level
            [newMessage DEBUG "x" userSite sampleTime,
             newMessage INFO "y" userSite sampleTime]).map format ++
          [format (closedMessage closeSite sampleTime)] ∧
        c.out.getLast? = some (format (closedMessage closeSite sampleTime)) ∧
        (closedMessage closeSite sampleTime).Level = lOGSYS ∧
        (closedMessage closeSite sampleTime).Message = "Logger closed" :=
  ⟨by decide, fun c h =>
    have hret : c.callers = [[]] := by
      have h1 : (exec scenarioAStart scenarioASchedule).map Config.callers = some [[]] := by
        decide
      rw [h] at h1
      simpa using h1
    ⟨hret, Close_is_drain_barrier_single_caller scenarioAStart
      [newMessage DEBUG "x" userSite sampleTime, newMessage INFO "y" userSite sampleTime]
      closeSite sampleTime scenarioASchedule c rfl rfl rfl (Or.inr (Or.inl rfl)) h hret⟩⟩

/-- Claim C4, as stated, fails: in scenario A (threshold INFO, capacity 10,
recording sink, `DEBUG("x")`, `INFO("y")`, `Close()`) the sink ends with three
lines, not two, and the first one is "Logger started", not the line of "y". -/
theorem scenarioA_writes_three_lines :
    NewLogger INFO 10 (some recorder) sampleTime runSite sampleTime [scenarioA] =
      .ok scenarioAStart ∧
    (exec scenarioAStart scenarioASchedule).map Config.callers = some [[]] ∧
    (exec scenarioAStart scenarioASchedule).map Config.out = some
      ["\x1b[1;31mLOGSYS\x1b[0m\t2024-01-02 03:04:05\tlogger.go:143\tLogger started\n",
       "\x1b[1;32mINFO\x1b[0m\t2024-01-02 03:04:05\tmain.go:10\ty\n",
       "\x1b[1;31mLOGSYS\x1b[0m\t2024-01-02 03:04:05\tlogger.go:164\tLogger closed\n"] := by
  decide

/-- Claim C4, amended.  In scenario A, whatever the schedule, once `Close`
has returned the sink holds exactly three lines: "Logger started", then the
line whose text is "y", then "Logger closed"; no line with text "x" is
written. -/
theorem scenarioA_sink_output (sched : List Tid) (c : Config)
    (hexec : exec scenarioAStart sched = some c) (hret : c.callers = [[]]) :
    NewLogger INFO 10 (some recorder) sampleTime runSite sampleTime [scenarioA] =
        .ok scenarioAStart ∧
      c.out =
        ["\x1b[1;31mLOGSYS\x1b[0m\t2024-01-02 03:04:05\tlogger.go:143\tLogger started\n",
         "\x1b[1;32mINFO\x1b[0m\t2024-01-02 03:04:05\tmain.go:10\ty\n",
         "\x1b[1;31mLOGSYS\x1b[0m\t2024-01-02 03:04:05\tlogger.go:164\tLogger closed\n"] := by
  refine ⟨by decide, ?_⟩
  have h := (solo_close_drains scenarioAStart
    [newMessage DEBUG "x" userSite sampleTime, newMessage INFO "y" userSite sampleTime]
    closeSite sampleTime sched c rfl rfl rfl (by decide) hexec hret).2.2.2.2
  rw [h]
  decide

/-- A use of `scenarioA_sink_output` on the schedule `scenarioASchedule`. -/
theorem scenarioA_sink_output_witness :
    exec scenarioAStart scenarioASchedule ≠ none ∧
      ∀ c, exec scenarioAStart scenarioASchedule = some c →
        NewLogger INFO 10 (some recorder) sampleTime runSite sampleTime [scenarioA] =
          .ok scenarioAStart ∧
        c.out =
          ["\x1b[1;31mLOGSYS\x1b[0m\t2024-01-02 03:04:05\tlogger.go:143\tLogger started\n",
           "\x1b[1;32mINFO\x1b[0m\t2024-01-02 03:04:05\tmain.go:10\ty\n",
           "\x1b[1;31mLOGSYS\x1b[0m\t2024-01-02 03:04:05\tlogger.go:164\tLogger closed\n"] :=
  ⟨by decide, fun c h =>
    scenarioA_sink_output scenarioASchedule c h (by
      have h1 : (exec scenarioAStart scenarioASchedule).map Config.callers = some [[]] := by
        decide
      rw [h] at h1
      simpa using h1)⟩

/-- Claim C5.  When the consumer, with a sink present, dequeues the message
`m`, its next two steps take `m` off the queue and issue exactly one write to
the sink, and the bytes written are `colorLevel m.Level`, TAB, the time as
"YYYY-MM-DD HH:MM:SS", TAB, the file, ":", the line in decimal, TAB, the text,
LF; `colorLevel` is ESC "[1;", the colour code in decimal, "m", the label,
ESC "[0m" with no space inserted, with code and label (34, DEBUG), (32, INFO),
(33, WARN), (31, ERROR) and (31, LOGSYS).  For every time with a year
below 10000 (and month, day, hour, minute and second below 100, as every
calendar time has) the timestamp is the nineteen characters YYYY-MM-DD
HH:MM:SS: the four decimal digits of the year, "-", the two digits of the
month, "-", the two digits of the day, a space, and the two digits each of
hour, minute and second separated by ":", all zero-padded. -/
theorem consumer_writes_one_formatted_line (c : Config) (m : message) (rest : List message)
    (w : Writter) (hrun : c.panicked = none) (hread : c.consumer = .read)
    (hbuf : c.l.msgs.buf = m :: rest) (hsink : c.l.writter = some w) :
    exec c [.consumer, .consumer] =
        some { c with
          l := { c.l with
            msgs := { c.l.msgs with buf := rest }
            writter := some { w with written := w.written ++ [format m] } }
          consumer := .cond } ∧
      format m = colorLevel m.Level ++ "\t" ++ m.Time.Format ++ "\t" ++ m.File ++ ":" ++
        toString m.Line ++ "\t" ++ m.Message ++ "\n" ∧
      (∀ level : LogLevel, colorLevel level =
        "\x1b[1;" ++ toString (logColerMap level) ++ "m" ++ logLevelMap level ++ "\x1b[0m") ∧
      colorLevel DEBUG = "\x1b[1;34mDEBUG\x1b[0m" ∧
      colorLevel INFO = "\x1b[1;32mINFO\x1b[0m" ∧
      colorLevel WARN = "\x1b[1;33mWARN\x1b[0m" ∧
      colorLevel ERROR = "\x1b[1;31mERROR\x1b[0m" ∧
      colorLevel lOGSYS = "\x1b[1;31mLOGSYS\x1b[0m" ∧
      (m.Time.year < 10000 → m.Time.month < 100 → m.Time.day < 100 → m.Time.hour < 100 →
        m.Time.minute < 100 → m.Time.second < 100 →
        m.Time.Format = String.mk
          [Nat.digitChar (m.Time.year / 1000 % 10), Nat.digitChar (m.Time.year / 100 % 10),
           Nat.digitChar (m.Time.year / 10 % 10), Nat.digitChar (m.Time.year % 10), '-',
           Nat.digitChar (m.Time.month / 10 % 10), Nat.digitChar (m.Time.month % 10), '-',
           Nat.digitChar (m.Time.day / 10 % 10), Nat.digitChar (m.Time.day % 10), ' ',
           Nat.digitChar (m.Time.hour / 10 % 10), Nat.digitChar (m.Time.hour % 10), ':',
           Nat.digitChar (m.Time.minute / 10 % 10), Nat.digitChar (m.Time.minute % 10), ':',
           Nat.digitChar (m.Time.second / 10 % 10), Nat.digitChar (m.Time.second % 10)]) := by
  refine ⟨?_, format_eq m, colorLevel_eq, by decide, by decide, by decide, by decide, by decide,
    Format_digits m.Time⟩
  simp [exec, step, hrun, stepConsumer, hread, read, Chan.recv, hbuf, hsink, Writter.Write]

/-- A use of `consumer_writes_one_formatted_line` on the first iteration of
the consumer in scenario A. -/
theorem consumer_writes_one_formatted_line_witness :
    exec { scenarioAStart with consumer := .read } [.consumer, .consumer] =
        some { scenarioAStart with
          l := { freshLogger with
            msgs := { freshLogger.msgs with buf := [] }
            writter := some { recorder with
              written := recorder.written ++ [format startedMessage] } }
          consumer := .cond } ∧
      format startedMessage =
        "\x1b[1;31mLOGSYS\x1b[0m\t2024-01-02 03:04:05\tlogger.go:143\tLogger started\n" ∧
      startedMessage.Time.Format = "2024-01-02 03:04:05" :=
  ⟨(consumer_writes_one_formatted_line { scenarioAStart with consumer := .read }
      startedMessage [] recorder rfl rfl rfl rfl).1, by decide,
   ((consumer_writes_one_formatted_line { scenarioAStart with consumer := .read }
      startedMessage [] recorder rfl rfl rfl rfl).2.2.2.2.2.2.2.2
      (by decide) (by decide) (by decide) (by decide) (by decide) (by decide)).trans
      (by decide)⟩

/-- Claim C6, as stated, fails: `SetLevel` and the constructors take any
integer as threshold, and with threshold 101 a SYSTEM message submitted to a
Logger that is not closed is dropped, by `write` and already by `NewLogger`,
whose "Logger started" message never reaches the queue. -/
theorem system_message_dropped_above_lOGSYS :
    (SetLevel freshLogger 101).closed = false ∧
      GetLevel (SetLevel freshLogger 101) = 101 ∧
      (closedMessage closeSite sampleTime).Level = lOGSYS ∧
      write (SetLevel freshLogger 101) (closedMessage closeSite sampleTime) =
        .ok (SetLevel freshLogger 101) ∧
      NewLogger 101 10 (some recorder) sampleTime runSite sampleTime [] =
        .ok { l := { freshLogger with level := 101, msgs := Chan.make 10 },
              consumer := .cond, callers := [], panicked := none } := by
  decide

/-- Claim C6, amended.  The levels are ordered DEBUG < INFO < WARN < ERROR <
SYSTEM, and for every threshold that is at most SYSTEM (DEBUG, INFO, WARN and
ERROR among them), set at construction or through `SetLevel`, a SYSTEM-level
message submitted to a Logger that is not closed, whose queue is open and has
room, passes the filter and is appended to the queue. -/
theorem system_message_passes_valid_threshold (l : Logger) (level : LogLevel) (m : message)
    (hlevel : level ≤ lOGSYS) (hm : m.Level = lOGSYS) (hrun : l.closed = false)
    (hchan : l.msgs.closed = false) (hroom : l.msgs.buf.length < l.msgs.cap) :
    (DEBUG < INFO ∧ INFO < WARN ∧ WARN < ERROR ∧ ERROR < lOGSYS) ∧
      GetLevel (SetLevel l level) = level ∧
      write (SetLevel l level) m =
        .ok { SetLevel l level with msgs := { l.msgs with buf := l.msgs.buf ++ [m] } } ∧
      (∀ (size : Nat) (w : Option Writter) (now : Time), 0 < size →
        write (NewLogger.l level size w now) m =
          .ok { NewLogger.l level size w now with
            msgs := { (Chan.make size : Chan message) with buf := [m] } }) := by
  refine ⟨by decide, rfl, ?_, ?_⟩
  · have hl : level ≤ m.Level := by rw [hm]; exact hlevel
    simp [write, SetLevel, hrun, hl, Chan.send, hchan, hroom]
  · intro size w now hsize
    have hl : level ≤ m.Level := by rw [hm]; exact hlevel
    cases w <;> simp [write, NewLogger.l, hl, Chan.send, Chan.make, hsize]

/-- A use of `system_message_passes_valid_threshold` with threshold ERROR. -/
theorem system_message_passes_valid_threshold_witness :
    write (SetLevel freshLogger ERROR) (closedMessage closeSite sampleTime) =
      .ok { SetLevel freshLogger ERROR with
        msgs := { freshLogger.msgs with
          buf := freshLogger.msgs.buf ++ [closedMessage closeSite sampleTime] } } :=
  (system_message_passes_valid_threshold freshLogger ERROR (closedMessage closeSite sampleTime)
    (by decide) rfl rfl rfl (by decide)).2.2.1

/-- Claim C7 fails on the code.  Thread 1 calls `ERROR("late")` and passes the
`closed` test of `write`; thread 0 then runs `Close` up to and including
`close(l.msgs)`; thread 1 then executes `l.msgs <- msg` on the closed queue
and the process panics with "send on closed channel". -/
theorem write_races_with_Close :
    NewLogger INFO 10 (some recorder) sampleTime runSite sampleTime
        [[.close closeSite sampleTime], [.log (newMessage ERROR "late" userSite sampleTime)]] =
      .ok raceStart ∧
    (exec raceStart (panicSchedule.take 5)).map
        (fun c => (c.l.closed, c.l.msgs.closed, c.callers, c.panicked)) =
      some (true, true,
        [[.recvExit], [.send (newMessage ERROR "late" userSite sampleTime)]], none) ∧
    (exec raceStart panicSchedule).map Config.panicked =
      some (some .sendOnClosedChannel) := by
  decide

/-- Claim C8.  On a Logger with `closed` set and the queue closed, which is
how a completed `Close` leaves it, a thread that calls `Close` again has its
"Logger closed" message discarded by `write`, sets `closed` once more, and
panics at `close(l.msgs)`: the queue and the sink are unchanged and the call
does not return. -/
theorem second_Close_panics (c : Config) (i : Nat) (caller : Caller) (now : Time)
    (rest : List Instr) (hrun : c.panicked = none)
    (hclosed : c.l.closed = true) (hchan : c.l.msgs.closed = true)
    (hcode : c.callers[i]? = some ((Call.close caller now).code ++ rest)) :
    exec c [.caller i, .caller i, .caller i] =
      some { c with
        callers := c.callers.set i (.closeMsgs :: .recvExit :: rest)
        panicked := some .closeOfClosedChannel } := by
  have hi : i < c.callers.length := by
    rcases Nat.lt_or_ge i c.callers.length with h | h
    · exact h
    · rw [List.getElem?_eq_none (by omega)] at hcode; cases hcode
  have hl : ({ c.l with closed := true } : Logger) = c.l := by
    cases hc : c.l; rw [hc] at hclosed; simp at hclosed; simp [hclosed]
  have h1 : step c (.caller i) = some { c with
      callers := c.callers.set i (.setClosed :: .closeMsgs :: .recvExit :: rest) } := by
    simp [step, hrun, stepCaller, hcode, Call.code, Close, hclosed]
  have h2 : step { c with
        callers := c.callers.set i (.setClosed :: .closeMsgs :: .recvExit :: rest) }
      (.caller i) =
      some { c with callers := c.callers.set i (.closeMsgs :: .recvExit :: rest) } := by
    simp [step, hrun, stepCaller, hl, List.getElem?_set_self hi]
  have h3 : step { c with callers := c.callers.set i (.closeMsgs :: .recvExit :: rest) }
      (.caller i) = some { c with
        callers := c.callers.set i (.closeMsgs :: .recvExit :: rest)
        panicked := some .closeOfClosedChannel } := by
    simp [step, hrun, stepCaller, List.getElem?_set_self hi, Chan.close, hchan]
  simp only [exec, h1, h2, h3]

/-- A use of `second_Close_panics`: the first `Close` of a thread returns
and its second `Close` panics. -/
theorem second_Close_panics_witness :
    exec { closeStart with
        callers := [program [.close closeSite sampleTime, .close closeSite sampleTime]] }
      (suspendSchedule ++ [.caller 0, .caller 0, .caller 0, .caller 0, .consumer, .consumer,
        .consumer, .caller 0]) =
      some { l := closedLogger, consumer := .done,
             callers := [program [.close closeSite sampleTime]], panicked := none } ∧
    exec { l := closedLogger, consumer := .done,
           callers := [program [.close closeSite sampleTime]], panicked := none }
        [.caller 0, .caller 0, .caller 0] =
      some { l := closedLogger, consumer := .done,
             callers := [[.closeMsgs, .recvExit]],
             panicked := some .closeOfClosedChannel } :=
  ⟨by decide,
   second_Close_panics
     { l := closedLogger, consumer := .done,
       callers := [program [.close closeSite sampleTime]], panicked := none }
     0 closeSite sampleTime [] rfl rfl rfl rfl⟩

/-- Claim C9 fails on the code.  `NewLoggerWithWritter` leaves `exit` nil
where `NewLogger` allocates the channel, and leaves a nil sink nil where
`NewLogger` puts `os.Stdout`; the other fields agree.  On the Logger it
returns, the receive on `exit` in `Close` can never complete. -/
theorem NewLoggerWithWritter_differs_from_NewLogger :
    (NewLoggerWithWritter INFO 10 none sampleTime).exit = none ∧
      (NewLogger.l INFO 10 none sampleTime).exit = some (Chan.make 0) ∧
      (NewLoggerWithWritter INFO 10 none sampleTime).writter = none ∧
      (NewLogger.l INFO 10 none sampleTime).writter = some osStdout ∧
      NewLoggerWithWritter INFO 10 (some recorder) sampleTime ≠
        NewLogger.l INFO 10 (some recorder) sampleTime ∧
      { NewLoggerWithWritter INFO 10 none sampleTime with
          exit := some (Chan.make 0), writter := some osStdout } =
        NewLogger.l INFO 10 none sampleTime ∧
      step { l := NewLoggerWithWritter INFO 10 (some recorder) sampleTime,
             consumer := .sendExit, callers := [[.recvExit]], panicked := none }
        (.caller 0) = none := by
  decide

/-- Claim C10 fails on the code.  The consumer is suspended in `read` on the
empty, open queue; `Close` enqueues "Logger closed", the consumer writes it
and, `closed` being still false, suspends in `read` again; `Close` sets
`closed` and closes the queue; the receive then yields the nil message, which
the consumer goes on to format, and the process panics on the nil
dereference. -/
theorem consumer_formats_nil_message :
    (exec closeStart suspendSchedule).map
        (fun c => (c.consumer, c.l.msgs.buf, c.l.msgs.closed, (step c .consumer).isNone)) =
      some (.read, [], false, true) ∧
    (exec closeStart (nilSchedule.take 11)).map
        (fun c => (c.consumer, c.l.msgs.buf, c.l.closed, c.l.msgs.closed)) =
      some (.read, [], true, true) ∧
    (exec closeStart (nilSchedule.take 11)).map Config.callers = some [[.recvExit]] ∧
    (exec closeStart (nilSchedule.take 12)).map Config.consumer = some (.write none) ∧
    (exec closeStart nilSchedule).map Config.panicked = some (some .nilDereference) := by
  decide

end XsLogger
